import Mathlib

/-!
Verification of the products CRUD server (`src/server.js`) against its
specification.

Modelling conventions (shallow embedding):

* JSON values that flow through the system (request bodies parsed by the
  `express.json()` middleware, and the contents of `products.json` parsed by
  `JSON.parse`) are modelled by the inductive type `JVal`.  Numbers in such
  values are exact rationals (`ℚ`): `JSON.parse` can only produce finite
  numbers (JSON has no literal for `NaN` or `Infinity`), so the
  `Number.isFinite` test in the validator is always true on them and IEEE
  rounding plays no role at the magnitudes the program manipulates.
* The id path parameter goes through `Number(req.params.id)`, which can
  produce `NaN` and infinities; it is therefore modelled by the separate type
  `JSNum` together with JS-faithful comparison operators.
* A request body is an `Option JObj`: `none` models a `null`/`undefined`
  body, `some fields` a parsed JSON object (the middleware only delivers
  objects for the requests the claims are about).
* JavaScript objects are association lists in insertion order with distinct
  keys, exactly what `JSON.parse` and object literals produce.
* The file system, as observed by `readProducts`/`writeProducts`, is a
  `FileState`: the file is missing, unreadable (any non-ENOENT error),
  blank, unparseable, or holds text that parses to a JSON value.
  `writeProducts` (stringify, write to temp file, atomic rename) is modelled
  at the value level: the written file parses back to exactly the array that
  was written, which is faithful because every value the server ever writes
  originates from parsed JSON and the validated fields of parsed bodies.
* A JavaScript statement that throws a `TypeError` (such as evaluating
  `'name' in body` when `body` is `null`/`undefined`, or reading `p.id` when
  `p` is `null`) is modelled by `Except.error` inside the validator and by
  the `Response.thrown` / 500 outcomes inside the handlers, matching where
  the source catches exceptions (`try`/`catch`) and where it does not.
-/

/-- A JavaScript number as produced by `Number(req.params.id)`: `NaN`, the
two infinities, or a finite value (modelled as an exact rational). -/
inductive JSNum where
  | nan
  | posInf
  | negInf
  | fin (q : ℚ)

/-- JavaScript `<` on numbers: any comparison involving `NaN` is false. -/
def jsLt : JSNum → JSNum → Bool
  | .nan, _ => false
  | _, .nan => false
  | .fin a, .fin b => decide (a < b)
  | .posInf, _ => false
  | .negInf, .negInf => false
  | .negInf, _ => true
  | _, .posInf => true
  | _, .negInf => false

/-- JavaScript `<=` on numbers: false if either side is `NaN`, otherwise the
negation of the reversed `<`. -/
def jsLe (a b : JSNum) : Bool :=
  match a, b with
  | .nan, _ => false
  | _, .nan => false
  | _, _ => !(jsLt b a)

/-- `Number.isInteger`. -/
def jsIsInteger : JSNum → Bool
  | .fin q => q.den == 1
  | _ => false

/-- JavaScript `===` between a finite number (from parsed JSON) and an
arbitrary number (`NaN === x` is always false). -/
def jsEqQNum (q : ℚ) : JSNum → Bool
  | .fin r => q == r
  | _ => false

/-- A parsed JSON value (output of `JSON.parse` / input of
`JSON.stringify`).  Object fields are in insertion order with distinct
keys. -/
inductive JVal where
  | null
  | bool (b : Bool)
  | num (q : ℚ)
  | str (s : String)
  | arr (xs : List JVal)
  | obj (fields : List (String × JVal))

/-- The fields of a JSON object body. -/
abbrev JObj := List (String × JVal)

/-- Property access `v[k]`: `none` models JavaScript `undefined` (absent
property, or access on a primitive that has no such property). -/
def JVal.get : JVal → String → Option JVal
  | .obj fs, k => fs.lookup k
  | _, _ => none

/-- `Object.keys` on the values the server touches (objects; every other
value the handlers apply it to has no own enumerable keys). -/
def JVal.keysOf : JVal → List String
  | .obj fs => fs.map Prod.fst
  | _ => []

def JVal.isNull : JVal → Bool
  | .null => true
  | _ => false

def JVal.isArr : JVal → Bool
  | .arr _ => true
  | _ => false

/-- JavaScript truthiness of a parsed JSON value. -/
def jsTruthy : JVal → Bool
  | .null => false
  | .bool b => b
  | .num q => !(q == 0)
  | .str s => !(s == "")
  | .arr _ => true
  | .obj _ => true

/-- `p.inStock === true` (strict equality against the boolean `true`). -/
def stockTrue (p : JVal) : Bool :=
  match p.get "inStock" with
  | some (.bool b) => b
  | _ => false

/-- The numeric value of `p.id`, when `p.id` is a number. -/
def pid (p : JVal) : Option ℚ :=
  match p.get "id" with
  | some (.num q) => some q
  | _ => none

/-- The numeric ids occurring in a collection, in order. -/
def idsQ (ps : List JVal) : List ℚ := ps.filterMap pid

/-- `p.id === id` where `id` came from `Number(req.params.id)`: strict
equality, so only a numeric `p.id` can match. -/
def idEqNum (p : JVal) (idp : JSNum) : Bool :=
  match p.get "id" with
  | some (.num q) => jsEqQNum q idp
  | _ => false

/-- The predicate of `products.findIndex(p => p && p.id === id)`. -/
def idMatches (p : JVal) (idp : JSNum) : Bool :=
  jsTruthy p && idEqNum p idp

/-- Whitespace as stripped by `String.prototype.trim` (the ASCII whitespace
characters plus the no-break space; further exotic Unicode space code points
behave the same way and are omitted from the model). -/
def jsWhitespace (c : Char) : Bool :=
  c == ' ' || c == '\t' || c == '\n' || c == '\r' || c == '\x0b' || c == '\x0c' || c == ' '

/-- `String.prototype.trim`: drop leading and trailing whitespace. -/
def jsTrim (s : String) : String :=
  String.mk (((s.data.dropWhile jsWhitespace).reverse.dropWhile jsWhitespace).reverse)

/-- Trim a JSON value when it is a string, leave it alone otherwise (the
effect of `if (typeof v === 'string') v = v.trim()`). -/
def trimIfStr : JVal → JVal
  | .str s => .str (jsTrim s)
  | v => v

/-- Assignment `obj[k] = v` on an association list: replace the value at the
first occurrence of `k`, append if absent. -/
def setFirst : JObj → String → JVal → JObj
  | [], k, v => [(k, v)]
  | (k1, v1) :: rest, k, v =>
    if k1 == k then (k, v) :: rest else (k1, v1) :: setFirst rest k v

/-- Property assignment on a JSON value (the handlers only assign to
objects; assignment on primitives is a silent no-op). -/
def JVal.setVal : JVal → String → JVal → JVal
  | .obj fs, k, v => .obj (setFirst fs k v)
  | w, _, _ => w

/-- `if (typeof updated.name === 'string') updated.name = updated.name.trim()`
from the update handler. -/
def retrimName (v : JVal) : JVal :=
  match v.get "name" with
  | some (.str s) => v.setVal "name" (.str (jsTrim s))
  | _ => v

/-- The object spread `{ ...a, ...b }`: the keys of `a` in their order with
values overridden by `b` where `b` has the key, followed by the keys of `b`
that `a` lacks, in their order. -/
def spreadMerge (a b : JObj) : JObj :=
  a.map (fun kv => match b.lookup kv.1 with
    | some v => (kv.1, v)
    | none => kv)
  ++ b.filter (fun kv => (a.lookup kv.1).isNone)

/-! ### The validator (`validateProductInput`) -/

def allowedKeys : List String := ["name", "price", "inStock"]

def nameErrMsg : String := "name must be a non-empty string"
def priceErrMsg : String := "price must be a non-negative number"
def stockErrMsg : String := "inStock must be a boolean"

/-- `Object.keys(body || {})`. -/
def objKeys : Option JObj → List String
  | none => []
  | some fs => fs.map Prod.fst

/-- Optional chaining `body?.k`: `undefined` when the body is absent or
lacks the key. -/
def bodyGet (body : Option JObj) (k : String) : Option JVal :=
  match body with
  | none => none
  | some fs => fs.lookup k

/-- `k in body` for an object body. -/
def hasKey (fs : JObj) (k : String) : Bool := fs.any (fun kv => kv.1 == k)

/-- The unknown-key loop: one error per key of the body that is not an
allowed key, in the order the keys appear. -/
def unknownFieldErrors (body : Option JObj) : List String :=
  ((objKeys body).filter (fun k => !(allowedKeys.contains k))).map
    (fun k => "Unknown field: " ++ k)

/-- Full mode: `typeof body?.name !== 'string' || body.name.trim() === ''`
(absence fails the `typeof` test exactly like a wrong-typed value). -/
def fullNameBad (body : Option JObj) : Bool :=
  match bodyGet body "name" with
  | some (.str s) => jsTrim s == ""
  | _ => true

/-- Full mode: `typeof body?.price !== 'number' || !Number.isFinite(body.price)
|| body.price < 0`.  Parsed JSON numbers are always finite, so the
`Number.isFinite` conjunct cannot fire on them. -/
def fullPriceBad (body : Option JObj) : Bool :=
  match bodyGet body "price" with
  | some (.num q) => decide (q < 0)
  | _ => true

/-- Full mode: `typeof body?.inStock !== 'boolean'`. -/
def fullStockBad (body : Option JObj) : Bool :=
  match bodyGet body "inStock" with
  | some (.bool _) => false
  | _ => true

/-- Present-key check of the partial mode:
`'name' in body && (typeof body.name !== 'string' || body.name.trim() === '')`. -/
def presentNameBad (fs : JObj) : Bool :=
  hasKey fs "name" &&
    (match fs.lookup "name" with
     | some (.str s) => jsTrim s == ""
     | _ => true)

/-- Present-key check of the partial mode for `price`. -/
def presentPriceBad (fs : JObj) : Bool :=
  hasKey fs "price" &&
    (match fs.lookup "price" with
     | some (.num q) => decide (q < 0)
     | _ => true)

/-- Present-key check of the partial mode for `inStock`. -/
def presentStockBad (fs : JObj) : Bool :=
  hasKey fs "inStock" &&
    (match fs.lookup "inStock" with
     | some (.bool _) => false
     | _ => true)

/-- `validateProductInput(body, isPartial)`.  The error list is built in
source order: unknown-field errors first, then the `name`, `price`,
`inStock` checks.  In partial mode the source evaluates `'name' in body` on
the raw body, which throws a `TypeError` when the body is `null`/`undefined`
(modelled by `Except.error ()`); full mode only uses the safe optional
chaining `body?.field` and never throws.  (`pMode` is the source's
`isPartial` flag.) -/
def validateProductInput (body : Option JObj) (pMode : Bool) : Except Unit (List String) :=
  let errs := unknownFieldErrors body
  if !pMode then
    .ok (errs
      ++ (if fullNameBad body then [nameErrMsg] else [])
      ++ (if fullPriceBad body then [priceErrMsg] else [])
      ++ (if fullStockBad body then [stockErrMsg] else []))
  else
    match body with
    | none => .error ()
    | some fs =>
      .ok (errs
        ++ (if presentNameBad fs then [nameErrMsg] else [])
        ++ (if presentPriceBad fs then [priceErrMsg] else [])
        ++ (if presentStockBad fs then [stockErrMsg] else []))

/-! ### The store (`readProducts` / `writeProducts`) -/

/-- The state of `products.json` as seen by one read: missing (`ENOENT`),
failing with any other I/O error, blank (empty or whitespace-only text),
malformed (text that `JSON.parse` rejects), or parsing to a JSON value. -/
inductive FileState where
  | enoent
  | ioError (msg : String)
  | blank
  | malformed
  | jsonData (v : JVal)

/-- `readProducts()`: missing file, blank contents, unparseable contents and
non-array contents all resolve to the empty collection; any other I/O error
rejects (propagates to the caller). -/
def readProducts : FileState → Except String (List JVal)
  | .enoent => .ok []
  | .ioError msg => .error msg
  | .blank => .ok []
  | .malformed => .ok []
  | .jsonData v =>
    match v with
    | .arr xs => .ok xs
    | _ => .ok []

/-- `writeProducts(products)`: stringify the collection and atomically
replace the file, so that afterwards the file parses to exactly the written
array (value-level model of stringify + temp file + rename). -/
def writeProducts (ps : List JVal) : FileState := .jsonData (.arr ps)

/-- The collection a state holds (empty for the error state, which no
reachable state is). -/
def loadList (fs : FileState) : List JVal :=
  match readProducts fs with
  | .ok ps => ps
  | .error _ => []

/-! ### The handlers -/

/-- An HTTP outcome: the 2xx JSON responses, the 400/404/500 error
responses, or an exception escaping the handler. -/
inductive Response where
  | ok (body : JVal)
  | created (body : JVal)
  | badRequest (message : String) (errors : List String)
  | notFound (message : String)
  | serverError (message : String)
  | thrown

/-- The id-assignment fold of the create handler:
`products.reduce((max, p) => (typeof p.id === 'number' && p.id > max ? p.id : max), 0)`. -/
def computeMaxId (products : List JVal) : ℚ :=
  products.foldl (fun mx p =>
    match p.get "id" with
    | some (.num q) => if mx < q then q else mx
    | _ => mx) 0

/-- `q + 1` on rationals, written directly on the `Rat` structure (numerator
plus denominator over the same denominator, which stays reduced) because
Mathlib's `Rat.add` is `@[irreducible]` and would block evaluation of the
handlers on concrete inputs.  `ratSucc_eq_add_one` below proves it is
exactly `q + 1`. -/
def ratSucc (q : ℚ) : ℚ :=
  ⟨q.num + q.den, q.den, q.den_nz, by
    have hg : Int.gcd (q.num + (q.den : ℤ)) (q.den : ℤ) = Int.gcd q.num (q.den : ℤ) := by
      apply Nat.dvd_antisymm
      · have h1 : (↑(Int.gcd (q.num + (q.den : ℤ)) (q.den : ℤ)) : ℤ) ∣ (q.num + (q.den : ℤ)) :=
          Int.gcd_dvd_left
        have h2 : (↑(Int.gcd (q.num + (q.den : ℤ)) (q.den : ℤ)) : ℤ) ∣ ((q.den : ℤ)) :=
          Int.gcd_dvd_right
        have h3 : (↑(Int.gcd (q.num + (q.den : ℤ)) (q.den : ℤ)) : ℤ) ∣ q.num := by
          simpa using dvd_sub h1 h2
        exact Int.natCast_dvd_natCast.mp (Int.dvd_gcd h3 h2)
      · have h1 : (↑(Int.gcd q.num (q.den : ℤ)) : ℤ) ∣ q.num := Int.gcd_dvd_left
        have h2 : (↑(Int.gcd q.num (q.den : ℤ)) : ℤ) ∣ ((q.den : ℤ)) := Int.gcd_dvd_right
        exact Int.natCast_dvd_natCast.mp (Int.dvd_gcd (dvd_add h1 h2) h2)
    have hred : q.num.natAbs.Coprime q.den := q.reduced
    show (q.num + (q.den : ℤ)).natAbs.gcd q.den = 1
    have hg2 : (q.num + (q.den : ℤ)).natAbs.gcd q.den = q.num.natAbs.gcd q.den := by
      simpa [Int.gcd] using hg
    rw [hg2]
    exact hred⟩

/-- `POST /products`.  Validates in full mode (this mode never throws), 400
on any error; then reads the store (a read failure is caught by the
handler's `try` and reported as the 500 `"Failed to save product"`); the
reduce computing the max id reads `p.id`, which throws on a `null` entry —
also caught as that 500; otherwise appends the new record (trimmed name,
id `maxId + 1`) and persists.  Full-mode validation guarantees `name` is a
string and `price`/`inStock` are present, so the fallback branches are
unreachable on inputs that pass validation. -/
def postProduct (body : Option JObj) (fs : FileState) : Response × FileState :=
  match validateProductInput body false with
  | .error _ => (.thrown, fs)
  | .ok errors =>
    if errors.isEmpty then
      match readProducts fs with
      | .error _ => (.serverError "Failed to save product", fs)
      | .ok products =>
        if products.any JVal.isNull then (.serverError "Failed to save product", fs)
        else
          match bodyGet body "name" with
          | some (.str nm) =>
            let newProduct : JVal := .obj
              [("id", .num (ratSucc (computeMaxId products))),
               ("name", .str (jsTrim nm)),
               ("price", (bodyGet body "price").getD .null),
               ("inStock", (bodyGet body "inStock").getD .null)]
            (.created newProduct, writeProducts (products ++ [newProduct]))
          | _ => (.thrown, fs)
    else (.badRequest "Invalid input" errors, fs)

/-- `Array.prototype.findIndex`: the index of the first element satisfying
the predicate (`none` models the source's `-1`). -/
def findIndex0 (p : α → Bool) : List α → Option Nat
  | [] => none
  | a :: l => if p a then some 0 else (findIndex0 p l).map (· + 1)

/-- `PUT /products/:id`.  400 `"Invalid id"` unless the id is a positive
integer; partial-mode validation (which throws on a `null`/`undefined`
body), 400 on errors; 404 when no truthy record with that id exists;
otherwise shallow-merges the body onto the record, re-trims a string
`name`, persists and returns the updated record.  The `findIndex` guard
guarantees the found entry is an object and the already-handled validation
guarantees the body is an object, so the fallback branches are
unreachable. -/
def putProduct (idp : JSNum) (body : Option JObj) (fs : FileState) : Response × FileState :=
  if !(jsIsInteger idp) || jsLe idp (.fin 0) then (.badRequest "Invalid id" [], fs)
  else
    match validateProductInput body true with
    | .error _ => (.thrown, fs)
    | .ok errors =>
      if errors.isEmpty then
        match readProducts fs with
        | .error _ => (.serverError "Failed to update product", fs)
        | .ok products =>
          match findIndex0 (fun p => idMatches p idp) products with
          | none => (.notFound "Product not found", fs)
          | some idx =>
            match products[idx]? with
            | some (.obj ofs) =>
              match body with
              | some bfs =>
                let updated := retrimName (.obj (spreadMerge ofs bfs))
                (.ok updated, writeProducts (products.set idx updated))
              | none => (.thrown, fs)
            | _ => (.thrown, fs)
      else (.badRequest "Invalid input" errors, fs)

/-- `DELETE /products/:id`.  400 `"Invalid id"` unless the id is a positive
integer; keeps the entries satisfying `p && p.id !== id`; 404 (without
writing) when nothing was dropped, otherwise persists the filtered
collection and reports success. -/
def deleteProduct (idp : JSNum) (fs : FileState) : Response × FileState :=
  if !(jsIsInteger idp) || jsLe idp (.fin 0) then (.badRequest "Invalid id" [], fs)
  else
    match readProducts fs with
    | .error _ => (.serverError "Failed to delete product", fs)
    | .ok products =>
      let remaining := products.filter (fun p => jsTruthy p && !(idEqNum p idp))
      if remaining.length == products.length then (.notFound "Product not found", fs)
      else
        (.ok (.obj [("message", .str "Product deleted successfully")]),
         writeProducts remaining)

/-- `GET /products/instock`: the records with `p && p.inStock === true`. -/
def getInstock (fs : FileState) : Response × FileState :=
  match readProducts fs with
  | .error _ => (.serverError "Failed to read products", fs)
  | .ok products =>
    (.ok (.arr (products.filter (fun p => jsTruthy p && stockTrue p))), fs)

/-! ### Operation sequences over the store -/

/-- One mutating API call. -/
inductive Op where
  | create (body : Option JObj)
  | update (idp : JSNum) (body : Option JObj)
  | delete (idp : JSNum)

/-- The file state after one call (the response is discarded; a failed call
leaves the file as it was). -/
def execOp (fs : FileState) : Op → FileState
  | .create body => (postProduct body fs).2
  | .update idp body => (putProduct idp body fs).2
  | .delete idp => (deleteProduct idp fs).2

/-- The file state after a sequence of calls. -/
def runOps (fs : FileState) (ops : List Op) : FileState := ops.foldl execOp fs

/-! ### Specification-side definitions -/

/-- A well-formed product record as the data-model section describes it: an
object with exactly the fields `id`, `name`, `price`, `inStock` in that
order, a positive integer id, a non-empty name without leading or trailing
whitespace, a non-negative (finite) price, and a boolean stock flag. -/
def wfProduct (p : JVal) : Bool :=
  (p.keysOf == ["id", "name", "price", "inStock"])
  && (match p.get "id" with
      | some (.num i) => (i.den == 1) && decide (0 < i)
      | _ => false)
  && (match p.get "name" with
      | some (.str s) => (jsTrim s == s) && !(s == "")
      | _ => false)
  && (match p.get "price" with
      | some (.num q) => decide (0 ≤ q)
      | _ => false)
  && (match p.get "inStock" with
      | some (.bool _) => true
      | _ => false)

/-- The id the specification says a create must assign, minus one:
the maximum of the existing numeric ids and `0`. -/
def maxIdSpec (ps : List JVal) : ℚ := (idsQ ps).foldl max 0

/-- The id carried by a 201 response. -/
def respCreatedId (r : Response) : Option ℚ :=
  match r with
  | .created p => pid p
  | _ => none

/-- The collection-wide invariant of the data model: every record is a
well-formed product and the ids are pairwise distinct. -/
def GoodColl (ps : List JVal) : Prop :=
  ps.all wfProduct = true ∧ (idsQ ps).Nodup

/-- A file state the server can be in: it loads without error and the
loaded collection satisfies the data-model invariant. -/
def GoodFs (fs : FileState) : Prop :=
  readProducts fs = .ok (loadList fs) ∧ GoodColl (loadList fs)

/-! ### Basic lemmas -/

theorem ratSucc_eq_add_one (q : ℚ) : ratSucc q = q + 1 := by
  have hden : ((q.den : ℚ)) ≠ 0 := by
    exact_mod_cast q.den_nz
  have h1 : ratSucc q = ((q.num + (q.den : ℤ) : ℤ) : ℚ) / ((q.den : ℤ) : ℚ) := by
    rw [ratSucc, Rat.mk'_eq_divInt, Rat.divInt_eq_div]
  rw [h1]
  push_cast
  rw [add_div, Rat.num_div_den, div_self hden]

theorem dropWhile_dropWhile (p : α → Bool) (l : List α) :
    (l.dropWhile p).dropWhile p = l.dropWhile p := by
  induction l with
  | nil => rfl
  | cons a l ih =>
    by_cases h : p a = true
    · simp [List.dropWhile_cons, h, ih]
    · simp [List.dropWhile_cons, h]

theorem dropWhile_head_not (p : α → Bool) (l : List α) (a : α) (u : List α)
    (h : l.dropWhile p = a :: u) : p a = false := by
  induction l with
  | nil => simp at h
  | cons b l ih =>
    rw [List.dropWhile_cons] at h
    by_cases hb : p b = true
    · rw [if_pos hb] at h
      exact ih h
    · rw [if_neg hb] at h
      obtain ⟨rfl, -⟩ := List.cons.inj h
      simpa using hb

theorem exists_dropWhile_append (p : α → Bool) (l : List α) :
    ∃ t, l = t ++ l.dropWhile p := by
  induction l with
  | nil => exact ⟨[], rfl⟩
  | cons a l ih =>
    by_cases h : p a = true
    · obtain ⟨t, ht⟩ := ih
      refine ⟨a :: t, ?_⟩
      simp [List.dropWhile_cons, h]
      exact ht
    · exact ⟨[], by simp [List.dropWhile_cons, h]⟩

theorem dropWhile_eq_self_of_head (p : α → Bool) (l : List α)
    (h : ∀ a u, l = a :: u → p a = false) : l.dropWhile p = l := by
  cases l with
  | nil => rfl
  | cons a u => simp [List.dropWhile_cons, h a u rfl]

theorem jsTrim_idem (s : String) : jsTrim (jsTrim s) = jsTrim s := by
  have w := jsWhitespace
  have main : ∀ l : List Char,
      let m := l.dropWhile jsWhitespace
      let r := m.reverse.dropWhile jsWhitespace
      ((r.reverse.dropWhile jsWhitespace).reverse.dropWhile jsWhitespace).reverse
        = r.reverse := by
    intro l m r
    have step1 : r.reverse.dropWhile jsWhitespace = r.reverse := by
      apply dropWhile_eq_self_of_head
      intro a u hau
      obtain ⟨t, ht⟩ := exists_dropWhile_append jsWhitespace m.reverse
      have hm2 : m = r.reverse ++ t.reverse := by
        have := congrArg List.reverse ht
        simpa using this
      have hmcons : m = a :: (u ++ t.reverse) := by rw [hm2, hau]; simp
      exact dropWhile_head_not jsWhitespace l a (u ++ t.reverse) hmcons
    have step2 : r.dropWhile jsWhitespace = r := dropWhile_dropWhile _ _
    rw [step1]
    simp only [List.reverse_reverse]
    rw [step2]
  show String.mk _ = String.mk _
  exact congrArg String.mk (main s.data)

theorem findIndex0_some (p : α → Bool) (l : List α) (i : Nat)
    (h : findIndex0 p l = some i) : ∃ x, l[i]? = some x ∧ p x = true := by
  induction l generalizing i with
  | nil => rw [findIndex0] at h; exact Option.noConfusion h
  | cons a l ih =>
    rw [findIndex0] at h
    by_cases ha : p a = true
    · rw [if_pos ha] at h
      obtain rfl := Option.some.inj h
      exact ⟨a, by simp, ha⟩
    · rw [if_neg ha] at h
      cases hrec : findIndex0 p l with
      | none => rw [hrec] at h; simp at h
      | some j =>
        rw [hrec] at h
        have h2 : some (j + 1) = some i := h
        obtain rfl := Option.some.inj h2
        obtain ⟨x, hx, hpx⟩ := ih j hrec
        exact ⟨x, by simpa using hx, hpx⟩

theorem findIndex0_none (p : α → Bool) (l : List α)
    (h : findIndex0 p l = none) : ∀ x ∈ l, p x = false := by
  induction l with
  | nil => simp
  | cons a l ih =>
    rw [findIndex0] at h
    by_cases ha : p a = true
    · rw [if_pos ha] at h; simp at h
    · rw [if_neg ha] at h
      intro x hx
      rcases List.mem_cons.mp hx with rfl | hx
      · simpa using ha
      · cases hrec : findIndex0 p l with
        | none => exact ih hrec x hx
        | some j => rw [hrec] at h; simp at h

/-! ### Association-list lemmas -/

theorem lookup_cons_eq (k : String) (v : JVal) (fs : JObj) :
    List.lookup k ((k, v) :: fs) = some v := by
  simp [List.lookup]


theorem lookup_cons_ne (k k1 : String) (v1 : JVal) (fs : JObj) (h : k1 ≠ k) :
    List.lookup k ((k1, v1) :: fs) = List.lookup k fs := by
  have hbf : (k == k1) = false := beq_eq_false_iff_ne.mpr (Ne.symm h)
  simp [List.lookup, hbf]

theorem lookup_append (l1 l2 : JObj) (k : String) :
    (l1 ++ l2).lookup k = ((l1.lookup k).orElse fun _ => l2.lookup k) := by
  induction l1 with
  | nil => simp
  | cons kv l1 ih =>
    obtain ⟨k1, v1⟩ := kv
    by_cases h : k1 = k
    · subst h
      rw [List.cons_append, lookup_cons_eq, lookup_cons_eq]
      rfl
    · rw [List.cons_append, lookup_cons_ne _ _ _ _ h, lookup_cons_ne _ _ _ _ h, ih]

theorem lookup_isSome_iff_mem_keys (fs : JObj) (k : String) :
    (fs.lookup k).isSome = true ↔ k ∈ fs.map Prod.fst := by
  induction fs with
  | nil => simp
  | cons kv fs ih =>
    obtain ⟨k1, v1⟩ := kv
    rw [List.map_cons]
    by_cases h : k1 = k
    · subst h
      rw [lookup_cons_eq]
      simp
    · rw [lookup_cons_ne _ _ _ _ h, ih]
      constructor
      · intro hm
        exact List.mem_cons_of_mem _ hm
      · intro hm
        rcases List.mem_cons.mp hm with h2 | h2
        · exact absurd h2.symm h
        · exact h2

theorem lookup_none_iff_not_mem_keys (fs : JObj) (k : String) :
    fs.lookup k = none ↔ k ∉ fs.map Prod.fst := by
  rw [← lookup_isSome_iff_mem_keys]
  cases fs.lookup k <;> simp

theorem hasKey_eq_lookup_isSome (fs : JObj) (k : String) :
    hasKey fs k = (fs.lookup k).isSome := by
  induction fs with
  | nil => rfl
  | cons kv fs ih =>
    obtain ⟨k1, v1⟩ := kv
    by_cases h : k1 = k
    · subst h
      rw [lookup_cons_eq]
      simp [hasKey]
    · rw [lookup_cons_ne _ _ _ _ h]
      have hbf : ((k1, v1).1 == k) = false := beq_eq_false_iff_ne.mpr h
      simp only [hasKey, List.any_cons, hbf, Bool.false_or]
      exact ih

theorem lookup_map_override (a b : JObj) (k : String) :
    (a.map (fun kv => match b.lookup kv.1 with
        | some v => (kv.1, v)
        | none => kv)).lookup k
      = match a.lookup k with
        | some v => (match b.lookup k with | some w => some w | none => some v)
        | none => none := by
  induction a with
  | nil => simp
  | cons kv a ih =>
    obtain ⟨k1, v1⟩ := kv
    rw [List.map_cons]
    by_cases h : k1 = k
    · subst h
      rw [lookup_cons_eq]
      cases hb : b.lookup k1 with
      | none =>
        simp only [hb]
        rw [lookup_cons_eq]
      | some w =>
        simp only [hb]
        rw [lookup_cons_eq]
    · rw [lookup_cons_ne _ _ _ _ h]
      cases hb : b.lookup k1 with
      | none =>
        simp only [hb]
        rw [lookup_cons_ne _ _ _ _ h, ih]
      | some w =>
        simp only [hb]
        rw [lookup_cons_ne _ _ _ _ h, ih]

theorem lookup_filter_of_true (b : JObj) (pr : String × JVal → Bool) (k : String)
    (h : ∀ v, pr (k, v) = true) : (b.filter pr).lookup k = b.lookup k := by
  induction b with
  | nil => simp
  | cons kv b ih =>
    obtain ⟨k1, v1⟩ := kv
    rw [List.filter_cons]
    by_cases hk : k1 = k
    · subst hk
      rw [if_pos (h v1), lookup_cons_eq, lookup_cons_eq]
    · cases hpr : pr (k1, v1) with
      | true =>
        rw [if_pos rfl, lookup_cons_ne _ _ _ _ hk, lookup_cons_ne _ _ _ _ hk, ih]
      | false =>
        rw [if_neg Bool.false_ne_true, lookup_cons_ne _ _ _ _ hk, ih]

theorem lookup_spreadMerge (a b : JObj) (k : String) :
    (spreadMerge a b).lookup k = ((b.lookup k).orElse fun _ => a.lookup k) := by
  unfold spreadMerge
  rw [lookup_append, lookup_map_override]
  cases ha : a.lookup k with
  | none =>
    have hfil : (b.filter (fun kv => (a.lookup kv.1).isNone)).lookup k = b.lookup k := by
      apply lookup_filter_of_true
      intro v
      simp [ha]
    simp only [Option.orElse]
    cases hb : b.lookup k <;> simp [hfil, hb]
  | some v =>
    cases hb : b.lookup k <;> simp [Option.orElse]

theorem keys_map_override (a b : JObj) :
    ((a.map (fun kv => match b.lookup kv.1 with
        | some v => (kv.1, v)
        | none => kv)).map Prod.fst) = a.map Prod.fst := by
  induction a with
  | nil => rfl
  | cons kv a ih =>
    obtain ⟨k1, v1⟩ := kv
    cases hb : b.lookup k1 with
    | none =>
      rw [List.map_cons, List.map_cons]
      simp only [hb]
      rw [List.map_cons]
      exact congrArg (k1 :: ·) ih
    | some w =>
      rw [List.map_cons, List.map_cons]
      simp only [hb]
      rw [List.map_cons]
      exact congrArg (k1 :: ·) ih

theorem filter_absent_eq_nil (a b : JObj)
    (h : ∀ kv ∈ b, (a.lookup kv.1).isSome = true) :
    b.filter (fun kv => (a.lookup kv.1).isNone) = [] := by
  induction b with
  | nil => rfl
  | cons kv b ih =>
    rw [List.filter_cons]
    have hkv := h kv (by simp)
    have hfalse : ((a.lookup kv.1).isNone : Bool) = false := by
      cases hl : a.lookup kv.1
      · rw [hl] at hkv; simp at hkv
      · simp [hl]
    rw [if_neg (by rw [hfalse]; exact Bool.false_ne_true)]
    exact ih (fun kv2 h2 => h kv2 (by simp [h2]))

theorem setFirst_lookup_self (fs : JObj) (k : String) (v : JVal) :
    (setFirst fs k v).lookup k = some v := by
  induction fs with
  | nil => exact lookup_cons_eq _ _ _
  | cons kv fs ih =>
    obtain ⟨k1, v1⟩ := kv
    rw [setFirst]
    by_cases h : k1 = k
    · rw [if_pos (by simpa using h), lookup_cons_eq]
    · rw [if_neg (by simpa using h), lookup_cons_ne _ _ _ _ h, ih]

theorem setFirst_lookup_other (fs : JObj) (k : String) (v : JVal) (k2 : String)
    (h : k2 ≠ k) : (setFirst fs k v).lookup k2 = fs.lookup k2 := by
  induction fs with
  | nil => rw [setFirst, lookup_cons_ne _ _ _ _ (Ne.symm h)]
  | cons kv fs ih =>
    obtain ⟨k1, v1⟩ := kv
    rw [setFirst]
    by_cases h1 : k1 = k
    · have hne1 : k1 ≠ k2 := by rw [h1]; exact Ne.symm h
      rw [if_pos (by simpa using h1), lookup_cons_ne _ _ _ _ (Ne.symm h),
        lookup_cons_ne _ _ _ _ hne1]
    · rw [if_neg (by simpa using h1)]
      by_cases h2 : k1 = k2
      · subst h2
        rw [lookup_cons_eq, lookup_cons_eq]
      · rw [lookup_cons_ne _ _ _ _ h2, lookup_cons_ne _ _ _ _ h2, ih]

theorem setFirst_keys_of_mem (fs : JObj) (k : String) (v : JVal)
    (h : k ∈ fs.map Prod.fst) :
    (setFirst fs k v).map Prod.fst = fs.map Prod.fst := by
  induction fs with
  | nil => simp at h
  | cons kv fs ih =>
    obtain ⟨k1, v1⟩ := kv
    rw [setFirst]
    by_cases h1 : k1 = k
    · subst h1
      rw [if_pos (by simp)]
      simp
    · rw [if_neg (by simpa using h1), List.map_cons, List.map_cons]
      rw [List.map_cons] at h
      have hmem : k ∈ fs.map Prod.fst := by
        rcases List.mem_cons.mp h with h2 | h2
        · exact absurd h2.symm h1
        · exact h2
      exact congrArg (k1 :: ·) (ih hmem)

/-! ### Lemmas about `retrimName` -/

theorem retrimName_of_get_str (v : JVal) (s : String)
    (h : v.get "name" = some (.str s)) :
    retrimName v = v.setVal "name" (.str (jsTrim s)) := by
  unfold retrimName
  rw [h]

theorem get_obj (fields : JObj) (k : String) :
    (JVal.obj fields).get k = fields.lookup k := rfl

theorem get_some_obj (v : JVal) (k : String) (w : JVal) (h : v.get k = some w) :
    ∃ fields, v = .obj fields := by
  cases v <;> first
    | exact ⟨_, rfl⟩
    | simp [JVal.get] at h

theorem retrimName_get_other (v : JVal) (k : String) (hk : k ≠ "name") :
    (retrimName v).get k = v.get k := by
  unfold retrimName
  cases hget : v.get "name" with
  | none => rfl
  | some w =>
    cases w with
    | str s =>
      obtain ⟨fields, rfl⟩ := get_some_obj v "name" _ hget
      show (JVal.obj (setFirst fields "name" (.str (jsTrim s)))).get k = _
      rw [get_obj, get_obj, setFirst_lookup_other _ _ _ _ hk]
    | null => rfl
    | bool b => rfl
    | num q => rfl
    | arr xs => rfl
    | obj fs => rfl

theorem retrimName_get_name (v : JVal) :
    (retrimName v).get "name" = (v.get "name").map trimIfStr := by
  unfold retrimName
  cases hget : v.get "name" with
  | none => rw [hget]; rfl
  | some w =>
    cases w with
    | str s =>
      obtain ⟨fields, rfl⟩ := get_some_obj v "name" _ hget
      rw [get_obj] at hget
      show (JVal.obj (setFirst fields "name" (.str (jsTrim s)))).get "name" = _
      rw [get_obj, setFirst_lookup_self]
      rfl
    | null => rw [hget]; rfl
    | bool b => rw [hget]; rfl
    | num q => rw [hget]; rfl
    | arr xs => rw [hget]; rfl
    | obj fs => rw [hget]; rfl

theorem retrimName_keysOf (v : JVal) : (retrimName v).keysOf = v.keysOf := by
  unfold retrimName
  cases hget : v.get "name" with
  | none => rfl
  | some w =>
    cases w with
    | str s =>
      obtain ⟨fields, rfl⟩ := get_some_obj v "name" _ hget
      show (JVal.obj (setFirst fields "name" (.str (jsTrim s)))).keysOf = _
      have hmem : "name" ∈ fields.map Prod.fst := by
        rw [← lookup_isSome_iff_mem_keys]
        rw [get_obj] at hget
        rw [hget]
        rfl
      show (setFirst fields "name" (.str (jsTrim s))).map Prod.fst = _
      rw [setFirst_keys_of_mem _ _ _ hmem]
      rfl
    | null => rfl
    | bool b => rfl
    | num q => rfl
    | arr xs => rfl
    | obj fs => rfl

theorem pid_retrimName (v : JVal) : pid (retrimName v) = pid v := by
  unfold pid
  rw [retrimName_get_other v "id" (by decide)]

/-! ### Lemmas about the id fold -/

theorem if_lt_eq_max (acc q : ℚ) : (if acc < q then q else acc) = max acc q := by
  rcases lt_or_ge acc q with h | h
  · rw [if_pos h, max_eq_right h.le]
  · rw [if_neg (not_lt.mpr h), max_eq_left h]

theorem computeMaxId_eq_foldl_max (ps : List JVal) :
    computeMaxId ps = (idsQ ps).foldl max 0 := by
  suffices haux : ∀ (l : List JVal) (acc : ℚ),
      l.foldl (fun mx p =>
        match p.get "id" with
        | some (.num q) => if mx < q then q else mx
        | _ => mx) acc = (idsQ l).foldl max acc by
    exact haux ps 0
  intro l
  induction l with
  | nil => intro acc; rfl
  | cons p l ih =>
    intro acc
    rw [List.foldl_cons]
    cases hg : p.get "id" with
    | none =>
      have hpid : pid p = none := by unfold pid; rw [hg]
      simp only [hg]
      rw [idsQ, List.filterMap_cons_none hpid, ih]
      rfl
    | some w =>
      cases w with
      | num q =>
        have hpid : pid p = some q := by unfold pid; rw [hg]
        simp only [hg]
        rw [idsQ, List.filterMap_cons_some hpid, if_lt_eq_max, List.foldl_cons, ih]
        rfl
      | null =>
        have hpid : pid p = none := by unfold pid; rw [hg]
        simp only [hg]
        rw [idsQ, List.filterMap_cons_none hpid, ih]
        rfl
      | bool b =>
        have hpid : pid p = none := by unfold pid; rw [hg]
        simp only [hg]
        rw [idsQ, List.filterMap_cons_none hpid, ih]
        rfl
      | str s =>
        have hpid : pid p = none := by unfold pid; rw [hg]
        simp only [hg]
        rw [idsQ, List.filterMap_cons_none hpid, ih]
        rfl
      | arr xs =>
        have hpid : pid p = none := by unfold pid; rw [hg]
        simp only [hg]
        rw [idsQ, List.filterMap_cons_none hpid, ih]
        rfl
      | obj fs =>
        have hpid : pid p = none := by unfold pid; rw [hg]
        simp only [hg]
        rw [idsQ, List.filterMap_cons_none hpid, ih]
        rfl

theorem acc_le_foldl_max (l : List ℚ) (acc : ℚ) : acc ≤ l.foldl max acc := by
  induction l generalizing acc with
  | nil => exact le_refl acc
  | cons a l ih =>
    rw [List.foldl_cons]
    exact le_trans (le_max_left acc a) (ih (max acc a))

theorem le_foldl_max (l : List ℚ) (acc : ℚ) (x : ℚ) (hx : x ∈ l) :
    x ≤ l.foldl max acc := by
  induction l generalizing acc with
  | nil => simp at hx
  | cons a l ih =>
    rw [List.foldl_cons]
    rcases List.mem_cons.mp hx with rfl | hx
    · exact le_trans (le_max_right acc x) (acc_le_foldl_max l (max acc x))
    · exact ih (max acc a) hx

theorem foldl_max_mem_or_acc (l : List ℚ) (acc : ℚ) :
    l.foldl max acc = acc ∨ l.foldl max acc ∈ l := by
  induction l generalizing acc with
  | nil => exact Or.inl rfl
  | cons a l ih =>
    rw [List.foldl_cons]
    rcases ih (max acc a) with h | h
    · rcases max_choice acc a with hm | hm
      · exact Or.inl (by rw [h, hm])
      · exact Or.inr (by rw [h, hm]; exact List.mem_cons_self a l)
    · exact Or.inr (List.mem_cons_of_mem a h)

/-! ### Lemmas about `idsQ` -/

theorem idsQ_append (l1 l2 : List JVal) : idsQ (l1 ++ l2) = idsQ l1 ++ idsQ l2 := by
  unfold idsQ
  exact List.filterMap_append _ _ _

theorem idsQ_set_of_pid_eq (ps : List JVal) (idx : Nat) (p p2 : JVal)
    (hget : ps[idx]? = some p) (hp : pid p2 = pid p) :
    idsQ (ps.set idx p2) = idsQ ps := by
  induction ps generalizing idx with
  | nil => simp at hget
  | cons a t ih =>
    cases idx with
    | zero =>
      have ha : a = p := by simpa using hget
      subst ha
      rw [List.set_cons_zero]
      unfold idsQ
      cases hpa : pid a with
      | none =>
        rw [List.filterMap_cons_none (by rw [hp, hpa]), List.filterMap_cons_none hpa]
      | some q =>
        rw [List.filterMap_cons_some (by rw [hp, hpa]),
          List.filterMap_cons_some hpa]
    | succ n =>
      have hget2 : t[n]? = some p := by simpa using hget
      rw [List.set_cons_succ]
      unfold idsQ
      cases hpa : pid a with
      | none =>
        rw [List.filterMap_cons_none hpa, List.filterMap_cons_none hpa]
        exact ih n hget2
      | some q =>
        rw [List.filterMap_cons_some hpa, List.filterMap_cons_some hpa]
        exact congrArg (q :: ·) (ih n hget2)

theorem idsQ_sublist (l1 l2 : List JVal) (h : l1.Sublist l2) :
    (idsQ l1).Sublist (idsQ l2) := by
  unfold idsQ
  exact h.filterMap pid

/-! ### Validator lemmas -/

theorem validate_full_eq (body : Option JObj) :
    validateProductInput body false
      = .ok (unknownFieldErrors body
          ++ (if fullNameBad body then [nameErrMsg] else [])
          ++ (if fullPriceBad body then [priceErrMsg] else [])
          ++ (if fullStockBad body then [stockErrMsg] else [])) := rfl

theorem validate_pmode_obj_eq (bfs : JObj) :
    validateProductInput (some bfs) true
      = .ok (unknownFieldErrors (some bfs)
          ++ (if presentNameBad bfs then [nameErrMsg] else [])
          ++ (if presentPriceBad bfs then [priceErrMsg] else [])
          ++ (if presentStockBad bfs then [stockErrMsg] else [])) := rfl

theorem validate_pmode_none_eq : validateProductInput none true = .error () := rfl

theorem if_flag_nil {c : Bool} {x : String}
    (h : (if c = true then [x] else []) = []) : c = false := by
  cases c with
  | false => rfl
  | true => simp at h

theorem append4_eq_nil {a b c d : List String} (h : a ++ b ++ c ++ d = []) :
    a = [] ∧ b = [] ∧ c = [] ∧ d = [] := by
  rcases List.append_eq_nil.mp h with ⟨h3, hd⟩
  rcases List.append_eq_nil.mp h3 with ⟨h2, hc⟩
  rcases List.append_eq_nil.mp h2 with ⟨ha, hb⟩
  exact ⟨ha, hb, hc, hd⟩

theorem unknown_nil_keys (body : Option JObj) (h : unknownFieldErrors body = []) :
    ∀ k ∈ objKeys body, k ∈ allowedKeys := by
  unfold unknownFieldErrors at h
  have hfil : (objKeys body).filter (fun k => !(allowedKeys.contains k)) = [] :=
    List.map_eq_nil_iff.mp h
  intro k hk
  by_contra hcon
  have hmem : k ∈ (objKeys body).filter (fun k => !(allowedKeys.contains k)) := by
    apply List.mem_filter.mpr
    refine ⟨hk, ?_⟩
    simpa using hcon
  rw [hfil] at hmem
  simp at hmem

theorem fullNameBad_false (body : Option JObj) (h : fullNameBad body = false) :
    ∃ s, bodyGet body "name" = some (.str s) ∧ jsTrim s ≠ "" := by
  unfold fullNameBad at h
  cases hg : bodyGet body "name" with
  | none => rw [hg] at h; exact Bool.noConfusion (show true = false from h)
  | some w =>
    cases w with
    | str s =>
      rw [hg] at h
      refine ⟨s, rfl, ?_⟩
      exact beq_eq_false_iff_ne.mp (show (jsTrim s == "") = false from h)
    | null => rw [hg] at h; exact Bool.noConfusion (show true = false from h)
    | bool b => rw [hg] at h; exact Bool.noConfusion (show true = false from h)
    | num q => rw [hg] at h; exact Bool.noConfusion (show true = false from h)
    | arr xs => rw [hg] at h; exact Bool.noConfusion (show true = false from h)
    | obj fs => rw [hg] at h; exact Bool.noConfusion (show true = false from h)

theorem fullPriceBad_false (body : Option JObj) (h : fullPriceBad body = false) :
    ∃ q, bodyGet body "price" = some (.num q) ∧ 0 ≤ q := by
  unfold fullPriceBad at h
  cases hg : bodyGet body "price" with
  | none => rw [hg] at h; exact Bool.noConfusion (show true = false from h)
  | some w =>
    cases w with
    | num q =>
      rw [hg] at h
      refine ⟨q, rfl, ?_⟩
      exact not_lt.mp (of_decide_eq_false (show decide (q < 0) = false from h))
    | null => rw [hg] at h; exact Bool.noConfusion (show true = false from h)
    | bool b => rw [hg] at h; exact Bool.noConfusion (show true = false from h)
    | str s => rw [hg] at h; exact Bool.noConfusion (show true = false from h)
    | arr xs => rw [hg] at h; exact Bool.noConfusion (show true = false from h)
    | obj fs => rw [hg] at h; exact Bool.noConfusion (show true = false from h)

theorem fullStockBad_false (body : Option JObj) (h : fullStockBad body = false) :
    ∃ b, bodyGet body "inStock" = some (.bool b) := by
  unfold fullStockBad at h
  cases hg : bodyGet body "inStock" with
  | none => rw [hg] at h; exact Bool.noConfusion (show true = false from h)
  | some w =>
    cases w with
    | bool b => exact ⟨b, rfl⟩
    | null => rw [hg] at h; exact Bool.noConfusion (show true = false from h)
    | num q => rw [hg] at h; exact Bool.noConfusion (show true = false from h)
    | str s => rw [hg] at h; exact Bool.noConfusion (show true = false from h)
    | arr xs => rw [hg] at h; exact Bool.noConfusion (show true = false from h)
    | obj fs => rw [hg] at h; exact Bool.noConfusion (show true = false from h)

theorem bodyGet_some_obj (body : Option JObj) (k : String) (v : JVal)
    (h : bodyGet body k = some v) : ∃ bfs, body = some bfs ∧ bfs.lookup k = some v := by
  cases body with
  | none => exact Option.noConfusion h
  | some bfs => exact ⟨bfs, rfl, h⟩

/-- Everything the create handler relies on about a body that passes
full-mode validation. -/
theorem validate_full_ok_elim (body : Option JObj)
    (h : validateProductInput body false = .ok []) :
    ∃ bfs, body = some bfs
      ∧ (∀ k ∈ bfs.map Prod.fst, k ∈ allowedKeys)
      ∧ (∃ nm, bfs.lookup "name" = some (.str nm) ∧ jsTrim nm ≠ "")
      ∧ (∃ q, bfs.lookup "price" = some (.num q) ∧ 0 ≤ q)
      ∧ (∃ b, bfs.lookup "inStock" = some (.bool b)) := by
  rw [validate_full_eq] at h
  have hlist := append4_eq_nil (Except.ok.inj h)
  obtain ⟨hunk, hn, hp, hs⟩ := hlist
  obtain ⟨nm, hnm, hnmne⟩ := fullNameBad_false body (if_flag_nil hn)
  obtain ⟨q, hq, hqpos⟩ := fullPriceBad_false body (if_flag_nil hp)
  obtain ⟨b, hb⟩ := fullStockBad_false body (if_flag_nil hs)
  obtain ⟨bfs, rfl, hnm2⟩ := bodyGet_some_obj body "name" _ hnm
  refine ⟨bfs, rfl, ?_, ⟨nm, hnm2, hnmne⟩, ⟨q, hq, hqpos⟩, ⟨b, hb⟩⟩
  intro k hk
  exact unknown_nil_keys _ hunk k (by simpa [objKeys] using hk)

theorem presentNameBad_false (bfs : JObj) (h : presentNameBad bfs = false)
    (v : JVal) (hv : bfs.lookup "name" = some v) :
    ∃ s, v = .str s ∧ jsTrim s ≠ "" := by
  unfold presentNameBad at h
  have hk : hasKey bfs "name" = true := by
    rw [hasKey_eq_lookup_isSome, hv]
    rfl
  rw [hk, Bool.true_and, hv] at h
  cases v with
  | str s => exact ⟨s, rfl, beq_eq_false_iff_ne.mp (show (jsTrim s == "") = false from h)⟩
  | null => exact Bool.noConfusion (show true = false from h)
  | bool b => exact Bool.noConfusion (show true = false from h)
  | num q => exact Bool.noConfusion (show true = false from h)
  | arr xs => exact Bool.noConfusion (show true = false from h)
  | obj fs => exact Bool.noConfusion (show true = false from h)

theorem presentPriceBad_false (bfs : JObj) (h : presentPriceBad bfs = false)
    (v : JVal) (hv : bfs.lookup "price" = some v) :
    ∃ q, v = .num q ∧ 0 ≤ q := by
  unfold presentPriceBad at h
  have hk : hasKey bfs "price" = true := by
    rw [hasKey_eq_lookup_isSome, hv]
    rfl
  rw [hk, Bool.true_and, hv] at h
  cases v with
  | num q =>
    exact ⟨q, rfl, not_lt.mp (of_decide_eq_false (show decide (q < 0) = false from h))⟩
  | null => exact Bool.noConfusion (show true = false from h)
  | bool b => exact Bool.noConfusion (show true = false from h)
  | str s => exact Bool.noConfusion (show true = false from h)
  | arr xs => exact Bool.noConfusion (show true = false from h)
  | obj fs => exact Bool.noConfusion (show true = false from h)

theorem presentStockBad_false (bfs : JObj) (h : presentStockBad bfs = false)
    (v : JVal) (hv : bfs.lookup "inStock" = some v) :
    ∃ b, v = .bool b := by
  unfold presentStockBad at h
  have hk : hasKey bfs "inStock" = true := by
    rw [hasKey_eq_lookup_isSome, hv]
    rfl
  rw [hk, Bool.true_and, hv] at h
  cases v with
  | bool b => exact ⟨b, rfl⟩
  | null => exact Bool.noConfusion (show true = false from h)
  | num q => exact Bool.noConfusion (show true = false from h)
  | str s => exact Bool.noConfusion (show true = false from h)
  | arr xs => exact Bool.noConfusion (show true = false from h)
  | obj fs => exact Bool.noConfusion (show true = false from h)

/-- Everything the update handler relies on about a body that passes
partial-mode validation. -/
theorem validate_pmode_ok_elim (bfs : JObj)
    (h : validateProductInput (some bfs) true = .ok []) :
    (∀ k ∈ bfs.map Prod.fst, k ∈ allowedKeys)
    ∧ (∀ v, bfs.lookup "name" = some v → ∃ s, v = .str s ∧ jsTrim s ≠ "")
    ∧ (∀ v, bfs.lookup "price" = some v → ∃ q, v = .num q ∧ 0 ≤ q)
    ∧ (∀ v, bfs.lookup "inStock" = some v → ∃ b, v = .bool b) := by
  rw [validate_pmode_obj_eq] at h
  have hlist := append4_eq_nil (Except.ok.inj h)
  obtain ⟨hunk, hn, hp, hs⟩ := hlist
  refine ⟨?_, ?_, ?_, ?_⟩
  · intro k hk
    exact unknown_nil_keys _ hunk k (by simpa [objKeys] using hk)
  · exact fun v hv => presentNameBad_false bfs (if_flag_nil hn) v hv
  · exact fun v hv => presentPriceBad_false bfs (if_flag_nil hp) v hv
  · exact fun v hv => presentStockBad_false bfs (if_flag_nil hs) v hv

/-! ### Lemmas about `wfProduct` -/

theorem wfProduct_elim (p : JVal) (h : wfProduct p = true) :
    ∃ fields i s q b,
      p = .obj fields
      ∧ fields.map Prod.fst = ["id", "name", "price", "inStock"]
      ∧ fields.lookup "id" = some (.num i) ∧ i.den = 1 ∧ 0 < i
      ∧ fields.lookup "name" = some (.str s) ∧ jsTrim s = s ∧ s ≠ ""
      ∧ fields.lookup "price" = some (.num q) ∧ 0 ≤ q
      ∧ fields.lookup "inStock" = some (.bool b) := by
  unfold wfProduct at h
  rw [Bool.and_eq_true, Bool.and_eq_true, Bool.and_eq_true, Bool.and_eq_true] at h
  obtain ⟨⟨⟨⟨hA, hB⟩, hC⟩, hD⟩, hE⟩ := h
  have hk : p.keysOf = ["id", "name", "price", "inStock"] := by simpa using hA
  obtain ⟨fields, rfl⟩ : ∃ fs, p = .obj fs := by
    cases p
    case obj fs => exact ⟨fs, rfl⟩
    all_goals simp [JVal.keysOf] at hk
  rw [get_obj] at hB hC hD hE
  rw [JVal.keysOf] at hk
  refine ⟨fields, ?_⟩
  cases hgi : fields.lookup "id" with
  | none => rw [hgi] at hB; exact Bool.noConfusion (show false = true from hB)
  | some wi =>
    rw [hgi] at hB
    cases wi with
    | num i =>
      rw [Bool.and_eq_true] at hB
      obtain ⟨hden, hpos⟩ := hB
      cases hgn : fields.lookup "name" with
      | none => rw [hgn] at hC; exact Bool.noConfusion (show false = true from hC)
      | some wn =>
        rw [hgn] at hC
        cases wn with
        | str s =>
          rw [Bool.and_eq_true] at hC
          obtain ⟨hstrim, hsne⟩ := hC
          cases hgp : fields.lookup "price" with
          | none => rw [hgp] at hD; exact Bool.noConfusion (show false = true from hD)
          | some wp =>
            rw [hgp] at hD
            cases wp with
            | num q =>
              cases hgs : fields.lookup "inStock" with
              | none => rw [hgs] at hE; exact Bool.noConfusion (show false = true from hE)
              | some ws =>
                rw [hgs] at hE
                cases ws with
                | bool b =>
                  refine ⟨i, s, q, b, rfl, hk, rfl, ?_, ?_, rfl, ?_, ?_, rfl, ?_, rfl⟩
                  · simpa using hden
                  · exact of_decide_eq_true hpos
                  · exact beq_iff_eq.mp hstrim
                  · simpa using hsne
                  · exact of_decide_eq_true hD
                | null => exact Bool.noConfusion (show false = true from hE)
                | num q2 => exact Bool.noConfusion (show false = true from hE)
                | str s2 => exact Bool.noConfusion (show false = true from hE)
                | arr xs => exact Bool.noConfusion (show false = true from hE)
                | obj fs2 => exact Bool.noConfusion (show false = true from hE)
            | null => exact Bool.noConfusion (show false = true from hD)
            | bool b2 => exact Bool.noConfusion (show false = true from hD)
            | str s2 => exact Bool.noConfusion (show false = true from hD)
            | arr xs => exact Bool.noConfusion (show false = true from hD)
            | obj fs2 => exact Bool.noConfusion (show false = true from hD)
        | null => exact Bool.noConfusion (show false = true from hC)
        | bool b2 => exact Bool.noConfusion (show false = true from hC)
        | num q2 => exact Bool.noConfusion (show false = true from hC)
        | arr xs => exact Bool.noConfusion (show false = true from hC)
        | obj fs2 => exact Bool.noConfusion (show false = true from hC)
    | null => exact Bool.noConfusion (show false = true from hB)
    | bool b2 => exact Bool.noConfusion (show false = true from hB)
    | str s2 => exact Bool.noConfusion (show false = true from hB)
    | arr xs => exact Bool.noConfusion (show false = true from hB)
    | obj fs2 => exact Bool.noConfusion (show false = true from hB)

theorem wfProduct_of_parts (p : JVal)
    (hk : p.keysOf = ["id", "name", "price", "inStock"])
    (hid : ∃ i, p.get "id" = some (.num i) ∧ i.den = 1 ∧ 0 < i)
    (hname : ∃ s, p.get "name" = some (.str s) ∧ jsTrim s = s ∧ s ≠ "")
    (hprice : ∃ q, p.get "price" = some (.num q) ∧ 0 ≤ q)
    (hstock : ∃ b, p.get "inStock" = some (.bool b)) :
    wfProduct p = true := by
  obtain ⟨i, hi, hiden, hipos⟩ := hid
  obtain ⟨s, hs, hstrim, hsne⟩ := hname
  obtain ⟨q, hq, hqpos⟩ := hprice
  obtain ⟨b, hb⟩ := hstock
  unfold wfProduct
  rw [hi, hs, hq, hb, hk]
  simp [hiden, hipos, hstrim, hsne, hqpos]

/-! ### Symbolic execution of the handlers -/

theorem postProduct_success (bfs : JObj) (fs : FileState) (ps : List JVal)
    (nm : String) (pv sv : JVal)
    (hv : validateProductInput (some bfs) false = .ok [])
    (hread : readProducts fs = .ok ps)
    (hnonull : ps.any JVal.isNull = false)
    (hnm : bfs.lookup "name" = some (.str nm))
    (hpv : bfs.lookup "price" = some pv)
    (hsv : bfs.lookup "inStock" = some sv) :
    postProduct (some bfs) fs
      = (.created (.obj [("id", .num (ratSucc (computeMaxId ps))),
          ("name", .str (jsTrim nm)), ("price", pv), ("inStock", sv)]),
         writeProducts (ps ++ [.obj [("id", .num (ratSucc (computeMaxId ps))),
          ("name", .str (jsTrim nm)), ("price", pv), ("inStock", sv)]])) := by
  unfold postProduct
  rw [hv]
  simp only [List.isEmpty_nil, if_true, hread, hnonull, Bool.false_eq_true, if_false]
  simp only [bodyGet, hnm, hpv, hsv, Option.getD_some]

theorem postProduct_invalid (body : Option JObj) (errs : List String) (fs : FileState)
    (hv : validateProductInput body false = .ok errs) (hne : errs ≠ []) :
    postProduct body fs = (.badRequest "Invalid input" errs, fs) := by
  unfold postProduct
  rw [hv]
  have hie : errs.isEmpty = false := by
    cases errs with
    | nil => exact absurd rfl hne
    | cons e es => rfl
  simp only [hie, Bool.false_eq_true, if_false]

theorem postProduct_cases (body : Option JObj) (fs : FileState) :
    (postProduct body fs).2 = fs
    ∨ ∃ bfs ps nm pv sv, body = some bfs
        ∧ validateProductInput body false = .ok []
        ∧ readProducts fs = .ok ps
        ∧ ps.any JVal.isNull = false
        ∧ bfs.lookup "name" = some (.str nm)
        ∧ bfs.lookup "price" = some pv
        ∧ bfs.lookup "inStock" = some sv
        ∧ postProduct body fs
            = (.created (.obj [("id", .num (ratSucc (computeMaxId ps))),
                ("name", .str (jsTrim nm)), ("price", pv), ("inStock", sv)]),
               writeProducts (ps ++ [.obj [("id", .num (ratSucc (computeMaxId ps))),
                ("name", .str (jsTrim nm)), ("price", pv), ("inStock", sv)]])) := by
  cases hv : validateProductInput body false with
  | error e =>
    left
    unfold postProduct
    rw [hv]
  | ok errs =>
    cases herrs : errs with
    | cons e es =>
      left
      rw [postProduct_invalid body errs fs hv (by rw [herrs]; simp)]
    | nil =>
      subst herrs
      cases hread : readProducts fs with
      | error msg =>
        left
        unfold postProduct
        rw [hv, hread]
        rfl
      | ok ps =>
        cases hnull : ps.any JVal.isNull with
        | true =>
          left
          unfold postProduct
          rw [hv, hread]
          simp only [List.isEmpty_nil, if_true, hnull, if_pos rfl]
        | false =>
          obtain ⟨bfs, rfl, hkeys, ⟨nm, hnm, hnmne⟩, ⟨q, hq, hq0⟩, ⟨b, hb⟩⟩ :=
            validate_full_ok_elim body hv
          right
          refine ⟨bfs, ps, nm, .num q, .bool b, rfl, rfl, rfl, hnull, hnm, hq, hb, ?_⟩
          exact postProduct_success bfs fs ps nm _ _ hv hread hnull hnm hq hb

theorem putProduct_badId (idp : JSNum) (body : Option JObj) (fs : FileState)
    (h : (!(jsIsInteger idp) || jsLe idp (.fin 0)) = true) :
    putProduct idp body fs = (.badRequest "Invalid id" [], fs) := by
  unfold putProduct
  rw [if_pos h]

theorem putProduct_thrown_nullBody (idp : JSNum) (fs : FileState)
    (hid : (!(jsIsInteger idp) || jsLe idp (.fin 0)) = false) :
    putProduct idp none fs = (.thrown, fs) := by
  unfold putProduct
  rw [if_neg (by rw [hid]; exact Bool.false_ne_true), validate_pmode_none_eq]

theorem putProduct_invalid (idp : JSNum) (body : Option JObj) (fs : FileState)
    (errs : List String)
    (hid : (!(jsIsInteger idp) || jsLe idp (.fin 0)) = false)
    (hv : validateProductInput body true = .ok errs) (hne : errs ≠ []) :
    putProduct idp body fs = (.badRequest "Invalid input" errs, fs) := by
  unfold putProduct
  rw [if_neg (by rw [hid]; exact Bool.false_ne_true), hv]
  have hie : errs.isEmpty = false := by
    cases errs with
    | nil => exact absurd rfl hne
    | cons e es => rfl
  simp only [hie, Bool.false_eq_true, if_false]

theorem putProduct_notFound (idp : JSNum) (body : Option JObj) (fs : FileState)
    (ps : List JVal)
    (hid : (!(jsIsInteger idp) || jsLe idp (.fin 0)) = false)
    (hv : validateProductInput body true = .ok [])
    (hread : readProducts fs = .ok ps)
    (hfind : findIndex0 (fun p => idMatches p idp) ps = none) :
    putProduct idp body fs = (.notFound "Product not found", fs) := by
  unfold putProduct
  rw [if_neg (by rw [hid]; exact Bool.false_ne_true), hv]
  simp only [List.isEmpty_nil, if_true, hread, hfind]

theorem putProduct_success (idp : JSNum) (bfs : JObj) (fs : FileState)
    (ps : List JVal) (idx : Nat) (ofs : JObj)
    (hid : (!(jsIsInteger idp) || jsLe idp (.fin 0)) = false)
    (hv : validateProductInput (some bfs) true = .ok [])
    (hread : readProducts fs = .ok ps)
    (hfind : findIndex0 (fun p => idMatches p idp) ps = some idx)
    (hold : ps[idx]? = some (.obj ofs)) :
    putProduct idp (some bfs) fs
      = (.ok (retrimName (.obj (spreadMerge ofs bfs))),
         writeProducts (ps.set idx (retrimName (.obj (spreadMerge ofs bfs))))) := by
  unfold putProduct
  rw [if_neg (by rw [hid]; exact Bool.false_ne_true), hv]
  simp only [List.isEmpty_nil, if_true, hread, hfind, hold]

theorem putProduct_cases (idp : JSNum) (body : Option JObj) (fs : FileState) :
    (putProduct idp body fs).2 = fs
    ∨ ∃ bfs ps idx ofs, body = some bfs
        ∧ (!(jsIsInteger idp) || jsLe idp (.fin 0)) = false
        ∧ validateProductInput (some bfs) true = .ok []
        ∧ readProducts fs = .ok ps
        ∧ findIndex0 (fun p => idMatches p idp) ps = some idx
        ∧ ps[idx]? = some (.obj ofs)
        ∧ putProduct idp body fs
            = (.ok (retrimName (.obj (spreadMerge ofs bfs))),
               writeProducts (ps.set idx (retrimName (.obj (spreadMerge ofs bfs))))) := by
  cases hid : (!(jsIsInteger idp) || jsLe idp (.fin 0)) with
  | true =>
    left
    rw [putProduct_badId idp body fs hid]
  | false =>
    cases hv : validateProductInput body true with
    | error e =>
      left
      unfold putProduct
      rw [if_neg (by rw [hid]; exact Bool.false_ne_true), hv]
    | ok errs =>
      cases herrs : errs with
      | cons e es =>
        left
        rw [putProduct_invalid idp body fs errs hid hv (by rw [herrs]; simp)]
      | nil =>
        subst herrs
        obtain ⟨bfs, rfl⟩ : ∃ bfs, body = some bfs := by
          cases body with
          | none => exact Except.noConfusion (validate_pmode_none_eq ▸ hv)
          | some bfs => exact ⟨bfs, rfl⟩
        cases hread : readProducts fs with
        | error msg =>
          left
          unfold putProduct
          rw [if_neg (by rw [hid]; exact Bool.false_ne_true), hv]
          simp only [List.isEmpty_nil, if_true, hread]
        | ok ps =>
          cases hfind : findIndex0 (fun p => idMatches p idp) ps with
          | none =>
            left
            rw [putProduct_notFound idp (some bfs) fs ps hid hv hread hfind]
          | some idx =>
            cases hold : ps[idx]? with
            | none =>
              left
              unfold putProduct
              rw [if_neg (by rw [hid]; exact Bool.false_ne_true), hv]
              simp only [List.isEmpty_nil, if_true, hread, hfind, hold]
            | some old =>
              cases old with
              | obj ofs =>
                right
                exact ⟨bfs, ps, idx, ofs, rfl, rfl, hv, rfl, hfind, hold,
                  putProduct_success idp bfs fs ps idx ofs hid hv hread hfind hold⟩
              | null =>
                left
                unfold putProduct
                rw [if_neg (by rw [hid]; exact Bool.false_ne_true), hv]
                simp only [List.isEmpty_nil, if_true, hread, hfind, hold]
              | bool b =>
                left
                unfold putProduct
                rw [if_neg (by rw [hid]; exact Bool.false_ne_true), hv]
                simp only [List.isEmpty_nil, if_true, hread, hfind, hold]
              | num q =>
                left
                unfold putProduct
                rw [if_neg (by rw [hid]; exact Bool.false_ne_true), hv]
                simp only [List.isEmpty_nil, if_true, hread, hfind, hold]
              | str s =>
                left
                unfold putProduct
                rw [if_neg (by rw [hid]; exact Bool.false_ne_true), hv]
                simp only [List.isEmpty_nil, if_true, hread, hfind, hold]
              | arr xs =>
                left
                unfold putProduct
                rw [if_neg (by rw [hid]; exact Bool.false_ne_true), hv]
                simp only [List.isEmpty_nil, if_true, hread, hfind, hold]

theorem deleteProduct_badId (idp : JSNum) (fs : FileState)
    (h : (!(jsIsInteger idp) || jsLe idp (.fin 0)) = true) :
    deleteProduct idp fs = (.badRequest "Invalid id" [], fs) := by
  unfold deleteProduct
  rw [if_pos h]

theorem deleteProduct_notFound (idp : JSNum) (fs : FileState) (ps : List JVal)
    (hid : (!(jsIsInteger idp) || jsLe idp (.fin 0)) = false)
    (hread : readProducts fs = .ok ps)
    (hlen : (ps.filter (fun p => jsTruthy p && !(idEqNum p idp))).length = ps.length) :
    deleteProduct idp fs = (.notFound "Product not found", fs) := by
  unfold deleteProduct
  rw [if_neg (by rw [hid]; exact Bool.false_ne_true), hread]
  simp only [hlen]
  rw [if_pos (by simp)]

theorem deleteProduct_removes (idp : JSNum) (fs : FileState) (ps : List JVal)
    (hid : (!(jsIsInteger idp) || jsLe idp (.fin 0)) = false)
    (hread : readProducts fs = .ok ps)
    (hlen : (ps.filter (fun p => jsTruthy p && !(idEqNum p idp))).length ≠ ps.length) :
    deleteProduct idp fs
      = (.ok (.obj [("message", .str "Product deleted successfully")]),
         writeProducts (ps.filter (fun p => jsTruthy p && !(idEqNum p idp)))) := by
  unfold deleteProduct
  rw [if_neg (by rw [hid]; exact Bool.false_ne_true)]
  simp only [hread]
  rw [if_neg (by simpa using hlen)]

theorem deleteProduct_cases (idp : JSNum) (fs : FileState) :
    (deleteProduct idp fs).2 = fs
    ∨ ∃ ps, readProducts fs = .ok ps
        ∧ (deleteProduct idp fs).2
            = writeProducts (ps.filter (fun p => jsTruthy p && !(idEqNum p idp))) := by
  cases hid : (!(jsIsInteger idp) || jsLe idp (.fin 0)) with
  | true =>
    left
    rw [deleteProduct_badId idp fs hid]
  | false =>
    cases hread : readProducts fs with
    | error msg =>
      left
      unfold deleteProduct
      rw [if_neg (by rw [hid]; exact Bool.false_ne_true), hread]
    | ok ps =>
      by_cases hlen : (ps.filter (fun p => jsTruthy p && !(idEqNum p idp))).length = ps.length
      · left
        rw [deleteProduct_notFound idp fs ps hid hread hlen]
      · right
        refine ⟨ps, rfl, ?_⟩
        rw [deleteProduct_removes idp fs ps hid hread hlen]

theorem getInstock_ok (fs : FileState) (ps : List JVal)
    (hread : readProducts fs = .ok ps) :
    getInstock fs = (.ok (.arr (ps.filter (fun p => jsTruthy p && stockTrue p))), fs) := by
  unfold getInstock
  rw [hread]

/-! ### The data-model invariant is preserved by every operation -/

theorem loadList_eq_of_read (fs : FileState) (ps : List JVal)
    (h : readProducts fs = .ok ps) : loadList fs = ps := by
  unfold loadList
  rw [h]

theorem all_wf_no_null (ps : List JVal) (h : ps.all wfProduct = true) :
    ps.any JVal.isNull = false := by
  rw [List.any_eq_false]
  intro p hp
  have hw := List.all_eq_true.mp h p hp
  cases p with
  | null => exact absurd hw (by decide)
  | bool b => simp [JVal.isNull]
  | num q => simp [JVal.isNull]
  | str s => simp [JVal.isNull]
  | arr xs => simp [JVal.isNull]
  | obj fs => simp [JVal.isNull]

theorem pid_of_wf (p : JVal) (h : wfProduct p = true) :
    ∃ i, pid p = some i ∧ i.den = 1 ∧ 0 < i := by
  obtain ⟨fields, i, s, q, b, rfl, hk, hid, hiden, hipos, -⟩ := wfProduct_elim p h
  refine ⟨i, ?_, hiden, hipos⟩
  unfold pid
  rw [get_obj, hid]

theorem idsQ_den_one_of_wf (ps : List JVal) (h : ps.all wfProduct = true)
    (q : ℚ) (hq : q ∈ idsQ ps) : q.den = 1 ∧ 0 < q := by
  obtain ⟨p, hp, hpid⟩ := List.mem_filterMap.mp hq
  obtain ⟨i, hpi, hiden, hipos⟩ := pid_of_wf p (List.all_eq_true.mp h p hp)
  obtain rfl : i = q := by rw [hpi] at hpid; exact Option.some.inj hpid
  exact ⟨hiden, hipos⟩

theorem computeMaxId_nonneg (ps : List JVal) : 0 ≤ computeMaxId ps := by
  rw [computeMaxId_eq_foldl_max]
  exact acc_le_foldl_max _ _

theorem computeMaxId_ge (ps : List JVal) (q : ℚ) (hq : q ∈ idsQ ps) :
    q ≤ computeMaxId ps := by
  rw [computeMaxId_eq_foldl_max]
  exact le_foldl_max _ _ _ hq

theorem computeMaxId_den_one_of_wf (ps : List JVal) (h : ps.all wfProduct = true) :
    (computeMaxId ps).den = 1 := by
  rw [computeMaxId_eq_foldl_max]
  rcases foldl_max_mem_or_acc (idsQ ps) 0 with hm | hm
  · rw [hm]; rfl
  · exact (idsQ_den_one_of_wf ps h _ hm).1

theorem ratSucc_den (q : ℚ) : (ratSucc q).den = q.den := rfl

theorem newId_fresh (ps : List JVal) (q : ℚ) (hq : q ∈ idsQ ps) :
    q < ratSucc (computeMaxId ps) := by
  rw [ratSucc_eq_add_one]
  have h1 := computeMaxId_ge ps q hq
  linarith

theorem newId_pos (ps : List JVal) : 0 < ratSucc (computeMaxId ps) := by
  rw [ratSucc_eq_add_one]
  have h1 := computeMaxId_nonneg ps
  linarith

theorem GoodColl_nil : GoodColl [] := ⟨rfl, List.nodup_nil⟩

theorem GoodFs_enoent : GoodFs .enoent := ⟨rfl, GoodColl_nil⟩

theorem GoodFs_write (ps : List JVal) (h : GoodColl ps) : GoodFs (writeProducts ps) :=
  ⟨rfl, h⟩

theorem GoodColl_append_new (ps : List JVal) (hg : GoodColl ps)
    (nm : String) (q : ℚ) (b : Bool) (hnm : jsTrim nm ≠ "") (hq : 0 ≤ q) :
    GoodColl (ps ++ [.obj [("id", .num (ratSucc (computeMaxId ps))),
      ("name", .str (jsTrim nm)), ("price", .num q), ("inStock", .bool b)]]) := by
  obtain ⟨hall, hnd⟩ := hg
  have hwf : wfProduct (.obj [("id", .num (ratSucc (computeMaxId ps))),
      ("name", .str (jsTrim nm)), ("price", .num q), ("inStock", .bool b)]) = true := by
    apply wfProduct_of_parts
    · rfl
    · refine ⟨ratSucc (computeMaxId ps), rfl, ?_, newId_pos ps⟩
      rw [ratSucc_den]
      exact computeMaxId_den_one_of_wf ps hall
    · exact ⟨jsTrim nm, rfl, jsTrim_idem nm, hnm⟩
    · exact ⟨q, rfl, hq⟩
    · exact ⟨b, rfl⟩
  constructor
  · rw [List.all_append, hall]
    simpa using hwf
  · rw [idsQ_append]
    have hsingle : idsQ [JVal.obj [("id", .num (ratSucc (computeMaxId ps))),
        ("name", .str (jsTrim nm)), ("price", .num q), ("inStock", .bool b)]]
        = [ratSucc (computeMaxId ps)] := by
      unfold idsQ
      rw [List.filterMap_cons_some
        (show pid (JVal.obj [("id", .num (ratSucc (computeMaxId ps))),
            ("name", .str (jsTrim nm)), ("price", .num q), ("inStock", .bool b)])
          = some (ratSucc (computeMaxId ps)) from rfl)]
      rfl
    rw [hsingle, List.nodup_append]
    refine ⟨hnd, List.nodup_singleton _, ?_⟩
    intro x hx hx2
    have hxeq : x = ratSucc (computeMaxId ps) := by simpa using hx2
    rw [hxeq] at hx
    exact absurd (newId_fresh ps _ hx) (lt_irrefl _)

/-- Merging a valid partial body onto a well-formed product and re-trimming
the name yields a well-formed product with the same id. -/
theorem merged_wf_and_pid (ofs bfs : JObj)
    (hwfold : wfProduct (.obj ofs) = true)
    (hv : validateProductInput (some bfs) true = .ok []) :
    wfProduct (retrimName (.obj (spreadMerge ofs bfs))) = true
    ∧ pid (retrimName (.obj (spreadMerge ofs bfs))) = pid (.obj ofs) := by
  obtain ⟨fields, i, s, q, b, heq, hk, hid, hiden, hipos, hname, hstrim, hsne,
    hprice, hq0, hstock⟩ := wfProduct_elim _ hwfold
  obtain rfl : ofs = fields := JVal.obj.inj heq
  obtain ⟨hkeys, hnameT, hpriceT, hstockT⟩ := validate_pmode_ok_elim bfs hv
  have hbfs_id : bfs.lookup "id" = none := by
    rw [lookup_none_iff_not_mem_keys]
    intro hmem
    have hco := hkeys "id" hmem
    simp [allowedKeys] at hco
  have hsubkeys : ∀ kv ∈ bfs, (ofs.lookup kv.1).isSome = true := by
    intro kv hkv
    have hmem := hkeys kv.1 (List.mem_map.mpr ⟨kv, hkv, rfl⟩)
    rw [lookup_isSome_iff_mem_keys, hk]
    rcases (show kv.1 = "name" ∨ kv.1 = "price" ∨ kv.1 = "inStock" by
      simpa [allowedKeys] using hmem) with h | h | h <;> simp [h]
  have hmkeys : (spreadMerge ofs bfs).map Prod.fst = ["id", "name", "price", "inStock"] := by
    unfold spreadMerge
    rw [filter_absent_eq_nil ofs bfs hsubkeys, List.append_nil, keys_map_override, hk]
  have hmid : (spreadMerge ofs bfs).lookup "id" = some (.num i) := by
    rw [lookup_spreadMerge, hbfs_id]
    simpa [Option.orElse] using hid
  have hmprice : ∃ q2, (spreadMerge ofs bfs).lookup "price" = some (.num q2) ∧ 0 ≤ q2 := by
    rw [lookup_spreadMerge]
    cases hbp : bfs.lookup "price" with
    | none =>
      refine ⟨q, ?_, hq0⟩
      simpa [Option.orElse] using hprice
    | some v =>
      obtain ⟨q2, rfl, hq2⟩ := hpriceT v hbp
      exact ⟨q2, by simp [Option.orElse], hq2⟩
  have hmstock : ∃ b2, (spreadMerge ofs bfs).lookup "inStock" = some (.bool b2) := by
    rw [lookup_spreadMerge]
    cases hbs : bfs.lookup "inStock" with
    | none =>
      refine ⟨b, ?_⟩
      simpa [Option.orElse] using hstock
    | some v =>
      obtain ⟨b2, rfl⟩ := hstockT v hbs
      exact ⟨b2, by simp [Option.orElse]⟩
  have hmname : ∃ s2, (spreadMerge ofs bfs).lookup "name" = some (.str s2) ∧ jsTrim s2 ≠ "" := by
    rw [lookup_spreadMerge]
    cases hbn : bfs.lookup "name" with
    | none =>
      refine ⟨s, ?_, by rw [hstrim]; exact hsne⟩
      simpa [Option.orElse] using hname
    | some v =>
      obtain ⟨s2, rfl, hs2⟩ := hnameT v hbn
      exact ⟨s2, by simp [Option.orElse], hs2⟩
  obtain ⟨s2, hms, hms2⟩ := hmname
  obtain ⟨q2, hmq, hmq2⟩ := hmprice
  obtain ⟨b2, hmb⟩ := hmstock
  have hwfu : wfProduct (retrimName (.obj (spreadMerge ofs bfs))) = true := by
    apply wfProduct_of_parts
    · rw [retrimName_keysOf]
      show (spreadMerge ofs bfs).map Prod.fst = _
      exact hmkeys
    · refine ⟨i, ?_, hiden, hipos⟩
      rw [retrimName_get_other _ _ (by decide), get_obj]
      exact hmid
    · refine ⟨jsTrim s2, ?_, jsTrim_idem s2, hms2⟩
      rw [retrimName_get_name, get_obj, hms]
      rfl
    · refine ⟨q2, ?_, hmq2⟩
      rw [retrimName_get_other _ _ (by decide), get_obj]
      exact hmq
    · refine ⟨b2, ?_⟩
      rw [retrimName_get_other _ _ (by decide), get_obj]
      exact hmb
  refine ⟨hwfu, ?_⟩
  unfold pid
  rw [retrimName_get_other _ _ (by decide), get_obj, get_obj, hmid, hid]

theorem GoodColl_set_update (ps : List JVal) (idx : Nat) (ofs bfs : JObj)
    (hg : GoodColl ps)
    (hold : ps[idx]? = some (.obj ofs))
    (hv : validateProductInput (some bfs) true = .ok []) :
    GoodColl (ps.set idx (retrimName (.obj (spreadMerge ofs bfs)))) := by
  obtain ⟨hall, hnd⟩ := hg
  have hwfold : wfProduct (.obj ofs) = true :=
    List.all_eq_true.mp hall _ (List.getElem?_mem hold)
  obtain ⟨hwfu, hpidu⟩ := merged_wf_and_pid ofs bfs hwfold hv
  constructor
  · rw [List.all_eq_true]
    intro p hp
    rcases List.mem_or_eq_of_mem_set hp with hmem | rfl
    · exact List.all_eq_true.mp hall p hmem
    · exact hwfu
  · rw [idsQ_set_of_pid_eq ps idx _ _ hold hpidu]
    exact hnd

theorem GoodColl_filter (ps : List JVal) (pr : JVal → Bool) (hg : GoodColl ps) :
    GoodColl (ps.filter pr) := by
  obtain ⟨hall, hnd⟩ := hg
  constructor
  · rw [List.all_eq_true]
    intro p hp
    exact List.all_eq_true.mp hall p (List.mem_of_mem_filter hp)
  · exact (idsQ_sublist _ _ (List.filter_sublist ps)).nodup hnd

theorem GoodFs_exec (fs : FileState) (op : Op) (h : GoodFs fs) :
    GoodFs (execOp fs op) := by
  obtain ⟨hread0, hcoll⟩ := h
  cases op with
  | create body =>
    show GoodFs (postProduct body fs).2
    rcases postProduct_cases body fs with h2 |
      ⟨bfs, ps, nm, pv, sv, rfl, hv, hread, hnl, hnm, hpv, hsv, heq⟩
    · rw [h2]; exact ⟨hread0, hcoll⟩
    · rw [loadList_eq_of_read fs ps hread] at hcoll
      obtain ⟨bfs2, hsome, hkeys, ⟨nm2, hnm2, hnm2ne⟩, ⟨q2, hq2, hq20⟩, ⟨b2, hb2⟩⟩ :=
        validate_full_ok_elim _ hv
      obtain rfl : bfs = bfs2 := Option.some.inj hsome
      obtain rfl : nm2 = nm := by
        rw [hnm2] at hnm
        exact JVal.str.inj (Option.some.inj hnm)
      obtain rfl : pv = .num q2 := by
        rw [hq2] at hpv
        exact (Option.some.inj hpv).symm
      obtain rfl : sv = .bool b2 := by
        rw [hb2] at hsv
        exact (Option.some.inj hsv).symm
      rw [heq]
      exact GoodFs_write _ (GoodColl_append_new ps hcoll nm2 q2 b2 hnm2ne hq20)
  | update idp body =>
    show GoodFs (putProduct idp body fs).2
    rcases putProduct_cases idp body fs with h2 |
      ⟨bfs, ps, idx, ofs, rfl, hid, hv, hread, hfind, hold, heq⟩
    · rw [h2]; exact ⟨hread0, hcoll⟩
    · rw [loadList_eq_of_read fs ps hread] at hcoll
      rw [heq]
      exact GoodFs_write _ (GoodColl_set_update ps idx ofs bfs hcoll hold hv)
  | delete idp =>
    show GoodFs (deleteProduct idp fs).2
    rcases deleteProduct_cases idp fs with h2 | ⟨ps, hread, heq⟩
    · rw [h2]; exact ⟨hread0, hcoll⟩
    · rw [loadList_eq_of_read fs ps hread] at hcoll
      rw [heq]
      exact GoodFs_write _ (GoodColl_filter ps _ hcoll)

theorem GoodFs_run (ops : List Op) (fs : FileState) (h : GoodFs fs) :
    GoodFs (runOps fs ops) := by
  induction ops generalizing fs with
  | nil => exact h
  | cons op ops ih =>
    rw [runOps, List.foldl_cons]
    exact ih _ (GoodFs_exec fs op h)

/-- A `PUT` request never changes any id: whatever the outcome, the list of
ids in the persisted collection is unchanged. -/
theorem putProduct_ids_preserved (idp : JSNum) (body : Option JObj) (fs : FileState) :
    idsQ (loadList ((putProduct idp body fs).2)) = idsQ (loadList fs) := by
  rcases putProduct_cases idp body fs with h2 |
    ⟨bfs, ps, idx, ofs, rfl, hid, hv, hread, hfind, hold, heq⟩
  · rw [h2]
  · rw [heq, loadList_eq_of_read fs ps hread]
    show idsQ (ps.set idx (retrimName (.obj (spreadMerge ofs bfs)))) = idsQ ps
    obtain ⟨hkeys, -, -, -⟩ := validate_pmode_ok_elim bfs hv
    have hbfs_id : bfs.lookup "id" = none := by
      rw [lookup_none_iff_not_mem_keys]
      intro hmem
      have hco := hkeys "id" hmem
      simp [allowedKeys] at hco
    have hpid : pid (retrimName (.obj (spreadMerge ofs bfs))) = pid (.obj ofs) := by
      unfold pid
      rw [retrimName_get_other _ _ (by decide), get_obj, get_obj,
        lookup_spreadMerge, hbfs_id]
      simp [Option.orElse]
    exact idsQ_set_of_pid_eq ps idx _ _ hold hpid

/-! ### Assorted lemmas used by the claim theorems -/

theorem spreadMerge_nil (a : JObj) : spreadMerge a [] = a := by
  unfold spreadMerge
  rw [List.filter_nil, List.append_nil]
  have : ∀ kv : String × JVal,
      (match List.lookup kv.1 ([] : JObj) with
        | some v => (kv.1, v)
        | none => kv) = kv := fun kv => rfl
  simp only [this]
  exact List.map_id _

theorem truthy_and_stockTrue (p : JVal) : (jsTruthy p && stockTrue p) = stockTrue p := by
  cases p with
  | null => rfl
  | bool b =>
    show (b && stockTrue (.bool b)) = stockTrue (.bool b)
    have : stockTrue (.bool b) = false := rfl
    rw [this, Bool.and_false]
  | num q =>
    show (jsTruthy (.num q) && stockTrue (.num q)) = stockTrue (.num q)
    have : stockTrue (.num q) = false := rfl
    rw [this, Bool.and_false]
  | str s =>
    show (jsTruthy (.str s) && stockTrue (.str s)) = stockTrue (.str s)
    have : stockTrue (.str s) = false := rfl
    rw [this, Bool.and_false]
  | arr xs =>
    show (true && stockTrue (.arr xs)) = stockTrue (.arr xs)
    rw [Bool.true_and]
  | obj fs =>
    show (true && stockTrue (.obj fs)) = stockTrue (.obj fs)
    rw [Bool.true_and]

theorem truthy_filter_id (ps : List JVal) (idp : JSNum)
    (htruthy : ps.all jsTruthy = true) :
    ps.filter (fun p => jsTruthy p && !(idEqNum p idp))
      = ps.filter (fun p => !(idEqNum p idp)) := by
  apply List.filter_congr
  intro p hp
  rw [List.all_eq_true.mp htruthy p hp, Bool.true_and]

/-! ### The claims -/

/-- Claim C1.  Collection-wide invariant: starting from the empty collection
(a missing file), after any sequence of create, update and delete calls
(failed calls leave the file untouched, so this covers every sequence of
successful ones), every record in the persisted collection is a well-formed
product — an object whose `id` is a positive integer, whose `name` is a
non-empty string equal to its own trim (no leading or trailing whitespace),
whose `price` is a (finite) non-negative number and whose `inStock` is a
boolean — the ids are unique across the collection, and an update never
changes any id (ids are immutable once assigned): the list of persisted ids
after any further `PUT` equals the list before it. -/
theorem claim_c1 (ops : List Op) (idp : JSNum) (body : Option JObj) :
    ((loadList (runOps .enoent ops)).all wfProduct = true
      ∧ (idsQ (loadList (runOps .enoent ops))).Nodup)
    ∧ idsQ (loadList ((putProduct idp body (runOps .enoent ops)).2))
        = idsQ (loadList (runOps .enoent ops)) := by
  have hg := GoodFs_run ops .enoent GoodFs_enoent
  exact ⟨hg.2, putProduct_ids_preserved idp body _⟩

/-- Claim C2.  `load()` is total over missing or malformed data: a missing
file, blank contents, contents that fail to parse, and contents that parse
to a non-array value all yield the empty collection rather than an error;
an array parses to exactly its elements; and every other I/O failure is
propagated to the caller as an error. -/
theorem claim_c2 :
    readProducts .enoent = .ok []
    ∧ readProducts .blank = .ok []
    ∧ readProducts .malformed = .ok []
    ∧ (∀ v : JVal, v.isArr = false → readProducts (.jsonData v) = .ok [])
    ∧ (∀ xs : List JVal, readProducts (.jsonData (.arr xs)) = .ok xs)
    ∧ (∀ msg : String, readProducts (.ioError msg) = .error msg) := by
  refine ⟨rfl, rfl, rfl, ?_, fun xs => rfl, fun msg => rfl⟩
  intro v hv
  cases v with
  | arr xs => simp [JVal.isArr] at hv
  | null => rfl
  | bool b => rfl
  | num q => rfl
  | str s => rfl
  | obj fs => rfl

/-- Witness for C2 at concrete inputs: a file parsing to the non-array
value `null` loads as the empty collection, and a permission error is
propagated verbatim. -/
theorem claim_c2_witness :
    readProducts (.jsonData .null) = .ok []
    ∧ readProducts (.ioError "EACCES: permission denied")
        = .error "EACCES: permission denied" :=
  ⟨claim_c2.2.2.2.1 .null rfl,
   claim_c2.2.2.2.2.2 "EACCES: permission denied"⟩

/-- Claim C8.  Round-trip: for every sequence of products, `save` followed
by `load` returns a collection equal to the original — same ids, same field
values, same order (literal equality of the lists).  The store is modelled
at the JSON-value level: `JSON.parse` output contains no `NaN`/`Infinity`
and no `undefined`, and on such values `JSON.parse ∘ JSON.stringify` is the
identity, so the written file parses back to exactly the written array. -/
theorem claim_c8 (ps : List JVal) : readProducts (writeProducts ps) = .ok ps := rfl

/-- Claim C7.  Filter correctness of the in-stock listing: for every loaded
collection, the in-stock endpoint returns exactly the subsequence of
records whose `inStock` field is strictly the boolean `true` (the handler's
extra truthiness guard changes nothing, so records with truthy non-boolean
values are excluded), in their original order, and the file is untouched.
The closed conjunct checks the mixed collection with `inStock` values
`true`, `1`, `"yes"`, `false` and a `null` entry: only the first record is
returned. -/
theorem claim_c7 :
    (∀ ps : List JVal,
      getInstock (.jsonData (.arr ps))
        = (.ok (.arr (ps.filter stockTrue)), .jsonData (.arr ps)))
    ∧ getInstock (.jsonData (.arr
        [.obj [("id", .num 1), ("inStock", .bool true)],
         .obj [("id", .num 2), ("inStock", .num 1)],
         .obj [("id", .num 3), ("inStock", .str "yes")],
         .obj [("id", .num 4), ("inStock", .bool false)],
         .null]))
      = (.ok (.arr [.obj [("id", .num 1), ("inStock", .bool true)]]),
         .jsonData (.arr
        [.obj [("id", .num 1), ("inStock", .bool true)],
         .obj [("id", .num 2), ("inStock", .num 1)],
         .obj [("id", .num 3), ("inStock", .str "yes")],
         .obj [("id", .num 4), ("inStock", .bool false)],
         .null])) := by
  constructor
  · intro ps
    rw [getInstock_ok (.jsonData (.arr ps)) ps rfl]
    rw [List.filter_congr (fun p _ => truthy_and_stockTrue p)]
  · rfl

/-- Claim C10.  Atomicity of early rejection: when create or update rejects
with a 400 (invalid id, or any validation error), the response and the
resulting state are those computed before the store is touched — the
theorem holds for an arbitrary file state `fs`, including an unreadable one
(`.ioError`), which a store access would have turned into a 500 response,
and the state component is returned unchanged, so the file is neither read
nor written. -/
theorem claim_c10 (fs : FileState) (bpost bput b2 : Option JObj)
    (idp idBad : JSNum) (errs errsU : List String)
    (h1 : validateProductInput bpost false = .ok errs) (h2 : errs ≠ [])
    (hbad : (!(jsIsInteger idBad) || jsLe idBad (.fin 0)) = true)
    (h3 : (!(jsIsInteger idp) || jsLe idp (.fin 0)) = false)
    (h5 : validateProductInput bput true = .ok errsU) (h6 : errsU ≠ []) :
    postProduct bpost fs = (.badRequest "Invalid input" errs, fs)
    ∧ putProduct idBad b2 fs = (.badRequest "Invalid id" [], fs)
    ∧ putProduct idp bput fs = (.badRequest "Invalid input" errsU, fs) :=
  ⟨postProduct_invalid bpost errs fs h1 h2,
   putProduct_badId idBad b2 fs hbad,
   putProduct_invalid idp bput fs errsU h3 h5 h6⟩

/-- Witness for C10 on an unreadable file state: an empty-object `POST`
body (all three required fields missing), the non-positive id `0`, and a
`PUT` body with the unknown field `foo` are all rejected with a 400 and the
`ioError` state is returned unchanged — the store was never read. -/
theorem claim_c10_witness :
    postProduct (some []) (.ioError "EACCES")
      = (.badRequest "Invalid input" [nameErrMsg, priceErrMsg, stockErrMsg],
         .ioError "EACCES")
    ∧ putProduct (.fin 0) none (.ioError "EACCES")
      = (.badRequest "Invalid id" [], .ioError "EACCES")
    ∧ putProduct (.fin 1) (some [("foo", .num 1)]) (.ioError "EACCES")
      = (.badRequest "Invalid input" ["Unknown field: foo"], .ioError "EACCES") := by
  have h := claim_c10 (.ioError "EACCES") (some []) (some [("foo", .num 1)]) none
    (.fin 1) (.fin 0) [nameErrMsg, priceErrMsg, stockErrMsg] ["Unknown field: foo"]
    rfl (by simp) rfl rfl rfl (by simp)
  exact h

/-- Counterexample to Claim C3 as stated.  Starting from the empty store:
create "A" (id 1), create "B" (id 2), delete id 2 (the highest id), then
create "C".  The second create assigned id 2, the delete removed that
record, and the next create assigns id 2 again — an id that previously
belonged to a deleted product — and not 3, the previous overall maximum
plus one that the claim requires.  The id counter is the maximum of the
*current* collection, so ids of deleted products are reused. -/
theorem claim_c3_counterexample :
    respCreatedId (postProduct
        (some [("name", .str "B"), ("price", .num 2), ("inStock", .bool false)])
        (postProduct
          (some [("name", .str "A"), ("price", .num 1), ("inStock", .bool true)])
          FileState.enoent).2).1 = some 2
    ∧ (deleteProduct (.fin 2)
        (postProduct
          (some [("name", .str "B"), ("price", .num 2), ("inStock", .bool false)])
          (postProduct
            (some [("name", .str "A"), ("price", .num 1), ("inStock", .bool true)])
            FileState.enoent).2).2).1
      = .ok (.obj [("message", .str "Product deleted successfully")])
    ∧ respCreatedId (postProduct
        (some [("name", .str "C"), ("price", .num 3), ("inStock", .bool true)])
        (deleteProduct (.fin 2)
          (postProduct
            (some [("name", .str "B"), ("price", .num 2), ("inStock", .bool false)])
            (postProduct
              (some [("name", .str "A"), ("price", .num 1), ("inStock", .bool true)])
              FileState.enoent).2).2).2).1 = some 2
    ∧ respCreatedId (postProduct
        (some [("name", .str "C"), ("price", .num 3), ("inStock", .bool true)])
        (deleteProduct (.fin 2)
          (postProduct
            (some [("name", .str "B"), ("price", .num 2), ("inStock", .bool false)])
            (postProduct
              (some [("name", .str "A"), ("price", .num 1), ("inStock", .bool true)])
              FileState.enoent).2).2).2).1 ≠ some 3 := by
  refine ⟨rfl, rfl, rfl, ?_⟩
  intro h
  have h2 : (some (2 : ℚ) : Option ℚ) = some 3 := by
    have hval : respCreatedId (postProduct
        (some [("name", .str "C"), ("price", .num 3), ("inStock", .bool true)])
        (deleteProduct (.fin 2)
          (postProduct
            (some [("name", .str "B"), ("price", .num 2), ("inStock", .bool false)])
            (postProduct
              (some [("name", .str "A"), ("price", .num 1), ("inStock", .bool true)])
              FileState.enoent).2).2).2).1 = some 2 := rfl
    rw [← hval]
    exact h
  have h3 := Option.some.inj h2
  norm_num at h3

/-- Claim C3, amended as the counterexample forces.  For every loaded
collection of well-formed products, create assigns the new product the id
`max(ids present in the loaded collection, 0) + 1`; this id is strictly
greater than every id in the current collection, so a sequence of creates
with no intervening deletion yields strictly increasing, unique ids.  Ids
of deleted products are *not* protected: the counter is the current
collection's maximum, so deleting the highest-id product and creating a new
one reuses the deleted id (see the counterexample). -/
theorem claim_c3_amended (ps : List JVal) (body : Option JObj) (q : ℚ)
    (hwf : ps.all wfProduct = true)
    (hv : validateProductInput body false = .ok [])
    (hq : q ∈ idsQ ps) :
    respCreatedId (postProduct body (.jsonData (.arr ps))).1
      = some (maxIdSpec ps + 1)
    ∧ q < maxIdSpec ps + 1 := by
  obtain ⟨bfs, rfl, hkeys, ⟨nm, hnm, hnmne⟩, ⟨q2, hq2, hq20⟩, ⟨b2, hb2⟩⟩ :=
    validate_full_ok_elim body hv
  have hnl := all_wf_no_null ps hwf
  rw [postProduct_success bfs (.jsonData (.arr ps)) ps nm _ _ hv rfl hnl hnm hq2 hb2]
  constructor
  · show pid (.obj [("id", .num (ratSucc (computeMaxId ps))),
        ("name", .str (jsTrim nm)), ("price", .num q2), ("inStock", .bool b2)])
      = some (maxIdSpec ps + 1)
    have hpid : pid (.obj [("id", .num (ratSucc (computeMaxId ps))),
        ("name", .str (jsTrim nm)), ("price", .num q2), ("inStock", .bool b2)])
        = some (ratSucc (computeMaxId ps)) := rfl
    rw [hpid, ratSucc_eq_add_one, computeMaxId_eq_foldl_max]
    rfl
  · have h1 : q ≤ maxIdSpec ps := le_foldl_max _ _ _ hq
    linarith

/-- Witness for the amended C3: on the two-product collection with ids 1
and 2, a valid create is answered with id `max {1, 2} + 1 = 3`, which is
strictly greater than the existing id 2. -/
theorem claim_c3_amended_witness :
    respCreatedId (postProduct
        (some [("name", .str "C"), ("price", .num 3), ("inStock", .bool true)])
        (.jsonData (.arr
          [.obj [("id", .num 1), ("name", .str "A"), ("price", .num 5), ("inStock", .bool true)],
           .obj [("id", .num 2), ("name", .str "B"), ("price", .num 6), ("inStock", .bool false)]]))).1
      = some (maxIdSpec
          [.obj [("id", .num 1), ("name", .str "A"), ("price", .num 5), ("inStock", .bool true)],
           .obj [("id", .num 2), ("name", .str "B"), ("price", .num 6), ("inStock", .bool false)]] + 1)
    ∧ (2 : ℚ) < maxIdSpec
          [.obj [("id", .num 1), ("name", .str "A"), ("price", .num 5), ("inStock", .bool true)],
           .obj [("id", .num 2), ("name", .str "B"), ("price", .num 6), ("inStock", .bool false)]] + 1 :=
  claim_c3_amended
    [.obj [("id", .num 1), ("name", .str "A"), ("price", .num 5), ("inStock", .bool true)],
     .obj [("id", .num 2), ("name", .str "B"), ("price", .num 6), ("inStock", .bool false)]]
    (some [("name", .str "C"), ("price", .num 3), ("inStock", .bool true)])
    2 rfl rfl (by decide)

/-- Claim C4.  Partial update is a shallow merge preserving untouched
fields: when a `PUT` with a valid partial body finds the record (an object
`ofs`) at index `idx`, the response carries the merged record `u`, the
persisted collection is the original with only position `idx` replaced by
`u`, every key other than `name` reads from the body when present there and
from the stored record otherwise, and the `name` field is additionally
re-trimmed when it is a string after the merge.  The spec's concrete
example (`PUT {price: 7}` on `{id:1, name:"A", price:5, inStock:true}`
yielding `{id:1, name:"A", price:7, inStock:true}`) is the witness
theorem. -/
theorem claim_c4 (ps : List JVal) (idp : JSNum) (bfs ofs : JObj) (idx : Nat)
    (u : JVal) (k : String)
    (hid : (!(jsIsInteger idp) || jsLe idp (.fin 0)) = false)
    (hv : validateProductInput (some bfs) true = .ok [])
    (hfind : findIndex0 (fun p => idMatches p idp) ps = some idx)
    (hold : ps[idx]? = some (.obj ofs))
    (hu : u = retrimName (.obj (spreadMerge ofs bfs)))
    (hk : k ≠ "name") :
    putProduct idp (some bfs) (.jsonData (.arr ps))
      = (.ok u, writeProducts (ps.set idx u))
    ∧ u.get k = ((bfs.lookup k).orElse fun _ => ofs.lookup k)
    ∧ u.get "name"
        = (((bfs.lookup "name").orElse fun _ => ofs.lookup "name").map trimIfStr) := by
  subst hu
  refine ⟨putProduct_success idp bfs (.jsonData (.arr ps)) ps idx ofs hid hv rfl hfind hold,
    ?_, ?_⟩
  · rw [retrimName_get_other _ _ hk, get_obj, lookup_spreadMerge]
  · rw [retrimName_get_name, get_obj, lookup_spreadMerge]

/-- Witness for C4: the spec's concrete example.  `PUT` with body
`{price: 7}` on the stored product `{id:1, name:"A", price:5,
inStock:true}` answers with `{id:1, name:"A", price:7, inStock:true}`,
persists exactly that record, overwrites `price` from the body, and keeps
`inStock` (checked via the field equations at the key `inStock`). -/
theorem claim_c4_witness :
    putProduct (.fin 1) (some [("price", .num 7)])
        (.jsonData (.arr [.obj [("id", .num 1), ("name", .str "A"),
          ("price", .num 5), ("inStock", .bool true)]]))
      = (.ok (.obj [("id", .num 1), ("name", .str "A"),
          ("price", .num 7), ("inStock", .bool true)]),
         writeProducts [.obj [("id", .num 1), ("name", .str "A"),
          ("price", .num 7), ("inStock", .bool true)]])
    ∧ (JVal.obj [("id", .num 1), ("name", .str "A"),
        ("price", .num 7), ("inStock", .bool true)]).get "inStock"
        = some (.bool true)
    ∧ (JVal.obj [("id", .num 1), ("name", .str "A"),
        ("price", .num 7), ("inStock", .bool true)]).get "name"
        = some (.str "A") := by
  have h := claim_c4
    [.obj [("id", .num 1), ("name", .str "A"), ("price", .num 5), ("inStock", .bool true)]]
    (.fin 1) [("price", .num 7)]
    [("id", .num 1), ("name", .str "A"), ("price", .num 5), ("inStock", .bool true)]
    0
    (.obj [("id", .num 1), ("name", .str "A"), ("price", .num 7), ("inStock", .bool true)])
    "inStock" rfl rfl rfl rfl rfl (by decide)
  exact ⟨h.1, h.2.1, h.2.2⟩

/-- Claim C5.  Full-mode validation is exhaustive and deterministic in its
order: for every input object the error list is exactly the unknown-field
errors (one per unknown key, in the order the keys appear in the input)
followed by the `name`, `price`, `inStock` errors in that fixed order, each
contributed once when its check fails; a missing required field fails the
same check — and therefore yields the same error message — as a wrong-typed
present field (the implications say absence makes each check fail); and the
body `{foo: 1}` yields exactly the four errors for the unknown field `foo`,
`name`, `price` and `inStock`. -/
theorem claim_c5 (bfs : JObj) :
    validateProductInput (some bfs) false
      = .ok ((((bfs.map Prod.fst).filter (fun k => !(allowedKeys.contains k))).map
            (fun k => "Unknown field: " ++ k))
          ++ (if fullNameBad (some bfs) then [nameErrMsg] else [])
          ++ (if fullPriceBad (some bfs) then [priceErrMsg] else [])
          ++ (if fullStockBad (some bfs) then [stockErrMsg] else []))
    ∧ (bfs.lookup "name" = none → fullNameBad (some bfs) = true)
    ∧ (bfs.lookup "price" = none → fullPriceBad (some bfs) = true)
    ∧ (bfs.lookup "inStock" = none → fullStockBad (some bfs) = true)
    ∧ validateProductInput (some [("foo", .num 1)]) false
        = .ok ["Unknown field: foo", nameErrMsg, priceErrMsg, stockErrMsg] := by
  refine ⟨validate_full_eq (some bfs), ?_, ?_, ?_, rfl⟩
  · intro h
    unfold fullNameBad
    rw [show bodyGet (some bfs) "name" = none from h]
  · intro h
    unfold fullPriceBad
    rw [show bodyGet (some bfs) "price" = none from h]
  · intro h
    unfold fullStockBad
    rw [show bodyGet (some bfs) "inStock" = none from h]

/-- Witness for C5 at the body `{foo: 1}`: the error list is exactly the
four errors in order, and each of the three required fields is absent and
therefore fails its type check. -/
theorem claim_c5_witness :
    validateProductInput (some [("foo", .num 1)]) false
      = .ok ["Unknown field: foo", nameErrMsg, priceErrMsg, stockErrMsg]
    ∧ fullNameBad (some [("foo", .num 1)]) = true
    ∧ fullPriceBad (some [("foo", .num 1)]) = true
    ∧ fullStockBad (some [("foo", .num 1)]) = true := by
  have h := claim_c5 [("foo", .num 1)]
  exact ⟨h.2.2.2.2, h.2.1 rfl, h.2.2.1 rfl, h.2.2.2.1 rfl⟩

/-- Counterexample to Claim C6 as stated.  The loaded collection
`[null, {id:1, ...}]` contains one record with id 1 and a `null` entry, and
`null` does not match id 1.  Per the claim, deleting id 1 must remove the
matching record "and nothing else", leaving `[null]`.  The code's filter
`p => p && p.id !== id` also drops the falsy `null` entry and persists the
empty collection. -/
theorem claim_c6_counterexample :
    deleteProduct (.fin 1) (.jsonData (.arr [.null,
        .obj [("id", .num 1), ("name", .str "A"), ("price", .num 5), ("inStock", .bool true)]]))
      = (.ok (.obj [("message", .str "Product deleted successfully")]),
         writeProducts ([] : List JVal))
    ∧ idEqNum .null (.fin 1) = false
    ∧ writeProducts ([] : List JVal) ≠ writeProducts [JVal.null] := by
  refine ⟨rfl, rfl, ?_⟩
  intro h
  have h2 : ([] : List JVal) = [JVal.null] :=
    JVal.arr.inj (FileState.jsonData.inj h)
  simp at h2

/-- Claim C6, amended as the counterexample forces.  For every loaded
collection whose entries are all truthy (in particular every collection of
well-formed products), delete removes exactly the records matching the id
and nothing else; if no entry matches, it returns 404 and the file state is
returned unchanged.  (On collections with falsy entries such as `null`, the
filter also drops those entries.)  Likewise `PUT` on a well-formed but
absent id returns 404 with the file state unchanged. -/
theorem claim_c6_amended (idp : JSNum) (ps : List JVal) (bput : JObj)
    (hid : (!(jsIsInteger idp) || jsLe idp (.fin 0)) = false)
    (htruthy : ps.all jsTruthy = true)
    (hv : validateProductInput (some bput) true = .ok []) :
    deleteProduct idp (.jsonData (.arr ps))
      = (if ps.any (fun p => idEqNum p idp) then
           (.ok (.obj [("message", .str "Product deleted successfully")]),
            writeProducts (ps.filter (fun p => !(idEqNum p idp))))
         else (.notFound "Product not found", .jsonData (.arr ps)))
    ∧ (findIndex0 (fun p => idMatches p idp) ps = none →
        putProduct idp (some bput) (.jsonData (.arr ps))
          = (.notFound "Product not found", .jsonData (.arr ps))) := by
  constructor
  · have hfe := truthy_filter_id ps idp htruthy
    cases hany : ps.any (fun p => idEqNum p idp) with
    | true =>
      rw [if_pos rfl]
      obtain ⟨p0, hp0, hpe⟩ := List.any_eq_true.mp hany
      have hlen : (ps.filter (fun p => jsTruthy p && !(idEqNum p idp))).length
          ≠ ps.length := by
        rw [hfe]
        intro hcon
        have hall := List.filter_length_eq_length.mp hcon p0 hp0
        rw [Bool.not_eq_true'] at hall
        rw [hall] at hpe
        exact Bool.noConfusion hpe
      rw [deleteProduct_removes idp (.jsonData (.arr ps)) ps hid rfl hlen, hfe]
    | false =>
      rw [if_neg Bool.false_ne_true]
      apply deleteProduct_notFound idp (.jsonData (.arr ps)) ps hid rfl
      rw [hfe]
      apply List.filter_length_eq_length.mpr
      intro a ha
      have hfa := List.any_eq_false.mp hany a ha
      rw [Bool.not_eq_true] at hfa
      rw [hfa]
      rfl
  · intro hfind
    exact putProduct_notFound idp (some bput) (.jsonData (.arr ps)) ps hid hv rfl hfind

/-- Witness for the amended C6: deleting id 1 from the two-product
collection removes exactly the record with id 1; deleting or updating with
the absent id 5 on a one-product collection returns 404 and leaves the file
state unchanged. -/
theorem claim_c6_amended_witness :
    deleteProduct (.fin 1) (.jsonData (.arr
        [.obj [("id", .num 1), ("name", .str "A"), ("price", .num 5), ("inStock", .bool true)],
         .obj [("id", .num 2), ("name", .str "B"), ("price", .num 6), ("inStock", .bool false)]]))
      = (.ok (.obj [("message", .str "Product deleted successfully")]),
         writeProducts
          [.obj [("id", .num 2), ("name", .str "B"), ("price", .num 6), ("inStock", .bool false)]])
    ∧ deleteProduct (.fin 5) (.jsonData (.arr
        [.obj [("id", .num 1), ("name", .str "A"), ("price", .num 5), ("inStock", .bool true)]]))
      = (.notFound "Product not found", .jsonData (.arr
          [.obj [("id", .num 1), ("name", .str "A"), ("price", .num 5), ("inStock", .bool true)]]))
    ∧ putProduct (.fin 5) (some []) (.jsonData (.arr
        [.obj [("id", .num 1), ("name", .str "A"), ("price", .num 5), ("inStock", .bool true)]]))
      = (.notFound "Product not found", .jsonData (.arr
          [.obj [("id", .num 1), ("name", .str "A"), ("price", .num 5), ("inStock", .bool true)]])) := by
  have h1 := (claim_c6_amended (.fin 1)
    [.obj [("id", .num 1), ("name", .str "A"), ("price", .num 5), ("inStock", .bool true)],
     .obj [("id", .num 2), ("name", .str "B"), ("price", .num 6), ("inStock", .bool false)]]
    [] rfl rfl rfl).1
  have h2 := claim_c6_amended (.fin 5)
    [.obj [("id", .num 1), ("name", .str "A"), ("price", .num 5), ("inStock", .bool true)]]
    [] rfl rfl rfl
  exact ⟨h1, h2.1, h2.2 rfl⟩

/-- Counterexample to Claim C9's parenthetical.  The partial-mode validator
does not treat a `null`/`undefined` body as an empty object reporting no
errors: evaluating `'name' in body` on such a body throws a `TypeError`
(modelled as `Except.error ()`), and a `PUT` with a valid id and a
`null`/`undefined` body on an existing record propagates that exception
instead of succeeding with 200. -/
theorem claim_c9_counterexample :
    validateProductInput none true = .error ()
    ∧ (putProduct (.fin 1) none (.jsonData (.arr [.obj [("id", .num 1),
        ("name", .str "A"), ("price", .num 5), ("inStock", .bool true)]]))).1
      = .thrown :=
  ⟨rfl, rfl⟩

/-- Claim C9, amended as the counterexample forces.  An *empty-object* body
(what the JSON middleware produces for an absent request body) is valid in
partial mode and reports no errors, so a `PUT` with the empty body on an
existing id succeeds with 200 and persists the stored record unchanged
except that a string `name` field is re-trimmed; only a literally
`null`/`undefined` body makes the partial validator throw. -/
theorem claim_c9_amended (ps : List JVal) (idp : JSNum) (idx : Nat) (ofs : JObj)
    (hid : (!(jsIsInteger idp) || jsLe idp (.fin 0)) = false)
    (hfind : findIndex0 (fun p => idMatches p idp) ps = some idx)
    (hold : ps[idx]? = some (.obj ofs)) :
    validateProductInput (some []) true = .ok []
    ∧ putProduct idp (some []) (.jsonData (.arr ps))
        = (.ok (retrimName (.obj ofs)),
           writeProducts (ps.set idx (retrimName (.obj ofs)))) := by
  refine ⟨rfl, ?_⟩
  have h := putProduct_success idp [] (.jsonData (.arr ps)) ps idx ofs hid rfl rfl hfind hold
  rw [spreadMerge_nil] at h
  exact h

/-- Witness for the amended C9: a `PUT` with the empty body on the record
`{id:1, name:" A ", price:5, inStock:true}` succeeds and persists the same
record with only the name trimmed to `"A"`. -/
theorem claim_c9_amended_witness :
    validateProductInput (some []) true = .ok []
    ∧ putProduct (.fin 1) (some []) (.jsonData (.arr [.obj [("id", .num 1),
        ("name", .str " A "), ("price", .num 5), ("inStock", .bool true)]]))
      = (.ok (.obj [("id", .num 1), ("name", .str "A"),
          ("price", .num 5), ("inStock", .bool true)]),
         writeProducts [.obj [("id", .num 1), ("name", .str "A"),
          ("price", .num 5), ("inStock", .bool true)]]) := by
  have h := claim_c9_amended
    [.obj [("id", .num 1), ("name", .str " A "), ("price", .num 5), ("inStock", .bool true)]]
    (.fin 1) 0
    [("id", .num 1), ("name", .str " A "), ("price", .num 5), ("inStock", .bool true)]
    rfl rfl rfl
  exact ⟨h.1, h.2⟩
